import Mathlib

/-
Verification development for the Ramadan reminder bot (src/bot.py).

Shallow embedding conventions:
- Calendar dates are represented by their proleptic Gregorian ordinal
  (Python date.toordinal); date.fromisoformat is modelled on the strict
  YYYY-MM-DD form the schedule file uses.  ISO date strings compare
  lexicographically exactly like their ordinals, so the ledger (sent_keys),
  which Python keys by ISO strings, is keyed by ordinals here.
- Clock times (datetime.time with hour and minute) are minutes since
  midnight; wall-clock instants (datetime) are seconds, as Int, counted as
  day ordinal * 86400 + seconds into the day.
- Python dicts are association lists with unique keys; lookup finds the
  first matching key, assignment overwrites in place, new keys append at
  the end, mirroring dict insertion-order semantics.
- File input is abstracted: load_schedule receives the list of lines of
  time.txt (read_text().splitlines()), and save_users stores the user map
  in a persisted snapshot field of the store instead of writing users.json.
- The notification loop body for one user and one tick is tick_user; the
  transport (bot.send_message) always succeeds and the sent messages are
  collected in a list.
-/

set_option maxRecDepth 100000

namespace Ram

/-! ### Generic dict operations (Python dict on association lists) -/

def dget [DecidableEq κ] (l : List (κ × α)) (k : κ) : Option α :=
  (l.find? (fun e => decide (e.1 = k))).map (·.2)

def dset [DecidableEq κ] : List (κ × α) → κ → α → List (κ × α)
  | [], _, _ => []
  | e :: t, k, v => if e.1 = k then (k, v) :: t else e :: dset t k v

/-- Python dict assignment d[k] = v: overwrite in place, append if new. -/
def dinsert [DecidableEq κ] (l : List (κ × α)) (k : κ) (v : α) : List (κ × α) :=
  if (dget l k).isSome then dset l k v else l ++ [(k, v)]

/-! ### String helpers (Python str.strip, int, date/time parsing) -/

def pystrip (s : String) : String :=
  ⟨((s.data.dropWhile Char.isWhitespace).reverse.dropWhile Char.isWhitespace).reverse⟩

/-- Python s.split(sep) for a one-character separator: keeps empty fields,
"" splits to [""]. -/
def splitChar (c : Char) (cs : List Char) : List (List Char) :=
  cs.foldr (fun ch acc =>
    match acc with
    | [] => [[ch]]
    | a :: rest => if ch = c then [] :: (a :: rest) else (ch :: a) :: rest) [[]]

def pysplit (s : String) (c : Char) : List String :=
  (splitChar c s.data).map (fun l => ⟨l⟩)

def pystartswith (s : String) (c : Char) : Bool :=
  match s.data with
  | x :: _ => x = c
  | [] => false

def digitVal (c : Char) : Option Nat :=
  if c.isDigit then some (c.toNat - 48) else none

def digitsVal : List Char → Option Nat
  | [] => none
  | cs => cs.foldl (fun acc c =>
      match acc, digitVal c with
      | some a, some v => some (a * 10 + v)
      | _, _ => none) (some 0)

/-- Python int(s) on the strings this program feeds it: optional sign,
then decimal digits (underscore digit grouping is not modelled). -/
def pyint (s : String) : Option Int :=
  match (pystrip s).data with
  | '-' :: rest => (digitsVal rest).map (fun n => -(n : Int))
  | '+' :: rest => (digitsVal rest).map (fun n => (n : Int))
  | cs => (digitsVal cs).map (fun n => (n : Int))

def isLeap (y : Nat) : Bool :=
  y % 4 == 0 && (y % 100 != 0 || y % 400 == 0)

def daysInMonth (y m : Nat) : Nat :=
  if m = 2 then (if isLeap y then 29 else 28)
  else if m = 4 ∨ m = 6 ∨ m = 9 ∨ m = 11 then 30 else 31

def daysBeforeMonth (y m : Nat) : Nat :=
  (List.range (m - 1)).foldl (fun acc i => acc + daysInMonth y (i + 1)) 0

/-- Python date.toordinal: day number with 0001-01-01 as day 1. -/
def toordinal (y m d : Nat) : Nat :=
  365 * (y - 1) + (y - 1) / 4 - (y - 1) / 100 + (y - 1) / 400 + daysBeforeMonth y m + d

/-- Python date.fromisoformat on the strict YYYY-MM-DD form (the only form
occurring in time.txt); yields the ordinal of the date. -/
def date_fromisoformat (s : String) : Option Nat :=
  match s.data with
  | [y1, y2, y3, y4, h1, m1, m2, h2, d1, d2] =>
    if h1 = '-' ∧ h2 = '-' then
      match digitsVal [y1, y2, y3, y4], digitsVal [m1, m2], digitsVal [d1, d2] with
      | some y, some m, some d =>
        if 1 ≤ y ∧ 1 ≤ m ∧ m ≤ 12 ∧ 1 ≤ d ∧ d ≤ daysInMonth y m then
          some (toordinal y m d)
        else none
      | _, _, _ => none
    else none
  | _ => none

/-- parse_time_hhmm (bot.py line 101): split on a colon into exactly two
fields, int both, build a time object (which validates hour and minute
ranges); encoded as minutes since midnight. -/
def parse_time_hhmm (s : String) : Option Nat :=
  match pysplit (pystrip s) ':' with
  | [a, b] =>
    match pyint a, pyint b with
    | some h, some m =>
      if 0 ≤ h ∧ h < 24 ∧ 0 ≤ m ∧ m < 60 then some (h.toNat * 60 + m.toNat) else none
    | _, _ => none
  | _ => none

/-! ### Schedule table (bot.py lines 105-159) -/

/-- date ordinal to (saharlik minutes, iftar minutes) -/
abbrev Schedule := List (Nat × (Nat × Nat))

/-- The stripped semicolon fields of a (stripped) schedule line. -/
def line_fields (line : String) : List String :=
  (pysplit (pystrip line) ';').map pystrip

/-- One iteration of the loop in load_schedule (bot.py lines 114-127):
strip, skip blank and comment lines, split on semicolons, skip rows with
fewer than three fields, skip rows whose date or either time fails to
parse, otherwise store (last occurrence of a date wins). -/
def sched_step (sched : Schedule) (line : String) : Schedule :=
  let l := pystrip line
  if l = "" ∨ pystartswith l '#' then sched
  else
    let parts := line_fields line
    if parts.length < 3 then sched
    else
      match date_fromisoformat (parts.getD 0 ""),
            parse_time_hhmm (parts.getD 1 ""), parse_time_hhmm (parts.getD 2 "") with
      | some row_day, some sah, some ift => dinsert sched row_day (sah, ift)
      | _, _, _ => sched

/-- load_schedule (bot.py line 105), over the lines of time.txt. -/
def load_schedule (lines : List String) : Schedule :=
  lines.foldl sched_step []

/-- load_day_times (bot.py line 131): exact lookup. -/
def load_day_times (lines : List String) (target_date : Nat) : Option (Nat × Nat) :=
  dget (load_schedule lines) target_date

/-- The sort key of the min call in find_nearest_day_times (bot.py line 145):
(absolute day distance, 0 if after the target else 1, toordinal), compared
lexicographically. -/
def nkey (target d : Nat) : Nat ×ₗ Nat ×ₗ Nat :=
  toLex ((((d : Int) - (target : Int)).natAbs, toLex ((if target < d then 0 else 1), d)))

/-- Python min(xs, key=f): first element with the least key (here the key is
injective, so the minimum is unique anyway). -/
def pymin [LinearOrder κ] (key : α → κ) (x : α) (xs : List α) : α :=
  xs.foldl (fun best c => if key c < key best then c else best) x

/-- find_nearest_day_times (bot.py line 138). -/
def find_nearest_day_times (lines : List String) (target_date : Nat) :
    Option (Nat × (Nat × Nat)) :=
  match load_schedule lines with
  | [] => none
  | e :: rest =>
    let nearest_day := pymin (nkey target_date) e.1 (rest.map Prod.fst)
    some (nearest_day, (dget (e :: rest) nearest_day).getD (0, 0))

/-- resolve_day_times (bot.py line 149). -/
def resolve_day_times (lines : List String) (target_date : Nat) :
    Option (Nat × Nat × Nat × Bool) :=
  match load_day_times lines target_date with
  | some (sah, ift) => some (target_date, sah, ift, true)
  | none =>
    match find_nearest_day_times lines target_date with
    | none => none
    | some (nearest_day, (sah, ift)) => some (nearest_day, sah, ift, false)

/-! ### Config and data model (bot.py lines 40-69) -/

def DEFAULT_PRESET : String := "full"

def MORNING_MESSAGE_AT : String := "08:30"

def NIGHT_MESSAGE_AT : String := "22:00"

structure Preset where
  iftar : List Nat
  saharlik : List Nat
deriving DecidableEq

def full_preset : Preset := ⟨[30, 15, 10, 5, 1], [5]⟩

def short_preset : Preset := ⟨[10, 5, 1], [5]⟩

def minimal_preset : Preset := ⟨[5, 1], [5]⟩

def PRESETS : List (String × Preset) :=
  [("full", full_preset), ("short", short_preset), ("minimal", minimal_preset)]

/-- The dedup ledger sent_keys: ISO date string (here: ordinal) to the list
of notification keys already fired on that day. -/
abbrev Ledger := List (Nat × List String)

/-- UserSettings (bot.py line 59) with the dataclass defaults. -/
structure UserSettings where
  enabled : Bool := true
  preset : String := DEFAULT_PRESET
  morning_time : String := MORNING_MESSAGE_AT
  night_time : String := NIGHT_MESSAGE_AT
  sent_keys : Ledger := []
deriving DecidableEq

/-- UserSettings() with the dataclass defaults (the record get_user creates
on first contact). -/
def defaultUser : UserSettings := {}

/-- The global mutable state: the in-memory users dict plus the users.json
snapshot save_users writes (serialization is the identity here). -/
structure Store where
  users : List (String × UserSettings)
  persisted : List (String × UserSettings)
deriving DecidableEq

/-- save_users (bot.py line 93): write the whole users dict to users.json. -/
def save_users (st : Store) : Store :=
  { st with persisted := st.users }

def emptyStore : Store := ⟨[], []⟩

/-! ### User store operations (bot.py lines 211-237) -/

/-- get_user (bot.py line 211): create-and-save defaults on first contact,
then coerce an unknown preset to the default (in memory only; the fixed
value reaches users.json on the next save_users call). -/
def get_user (st : Store) (uid : String) : Store × UserSettings :=
  let st0 := if (dget st.users uid).isSome then st
             else save_users { st with users := st.users ++ [(uid, defaultUser)] }
  let u := (dget st0.users uid).getD defaultUser
  if (dget PRESETS u.preset).isSome then (st0, u)
  else
    let u1 := { u with preset := DEFAULT_PRESET }
    ({ st0 with users := dset st0.users uid u1 }, u1)

/-- u.sent_keys.get(ds, []) -/
def ledger_get (sk : Ledger) (d : Nat) : List String :=
  (dget sk d).getD []

/-- u.sent_keys.setdefault(ds, []) -/
def ledger_setdefault (sk : Ledger) (d : Nat) : Ledger :=
  if (dget sk d).isSome then sk else sk ++ [(d, [])]

/-- The pruning step of mark_sent (bot.py lines 228-231): sort the day keys
(ISO strings sort like ordinals), and when more than 10 days are present
pop every day but the latest 10. -/
def prune (sk : Ledger) : Ledger :=
  let all_days := List.insertionSort (· ≤ ·) (sk.map Prod.fst)
  if all_days.length > 10 then
    let olds := all_days.take (all_days.length - 10)
    sk.filter (fun e => decide (e.1 ∉ olds))
  else sk

/-- The ledger mutation performed by mark_sent (bot.py lines 223-231):
setdefault the day, append the key when absent and then prune. -/
def mark_ledger (sk : Ledger) (day : Nat) (key : String) : Ledger :=
  let sk1 := ledger_setdefault sk day
  let cur := ledger_get sk1 day
  if key ∈ cur then sk1 else prune (dset sk1 day (cur ++ [key]))

/-- mark_sent (bot.py line 220). -/
def mark_sent (st : Store) (uid : String) (day : Nat) (key : String) : Store :=
  let gu := get_user st uid
  save_users
    { gu.1 with users := dset gu.1.users uid { gu.2 with sent_keys := mark_ledger gu.2.sent_keys day key } }

/-- was_sent (bot.py line 234); the store result carries the get_user side
effects (user creation and preset normalization). -/
def was_sent (st : Store) (uid : String) (day : Nat) (key : String) : Store × Bool :=
  let gu := get_user st uid
  (gu.1, decide (key ∈ ledger_get gu.2.sent_keys day))

/-! ### Notification tick (bot.py lines 458-539) -/

/-- now.strftime("%H:%M") from the seconds into the day. -/
def two_digits (n : Nat) : String :=
  (if n < 10 then "0" else "") ++ toString n

def strftime_hm (sec : Nat) : String :=
  two_digits (sec / 3600) ++ ":" ++ two_digits (sec % 3600 / 60)

/-- A message pushed through the transport, identified by its dedup key;
for the two digests, degraded records the time-not-found fallback text. -/
structure Msg where
  key : String
  degraded : Bool
deriving DecidableEq

/-- PRESETS.get(u.preset, PRESETS[DEFAULT_PRESET]) (bot.py line 498). -/
def preset_of (p : String) : Preset :=
  (dget PRESETS p).getD full_preset

/-- One reminder block of the loop (bot.py lines 504-515, 518-525, 528-539):
for each (key, trigger) pair in order, skip if already sent, else fire and
mark when trigger <= now < trigger + one minute. -/
def check_items (uid : String) (today : Nat) (now : Int) :
    List (String × Int) → Store × List Msg → Store × List Msg
  | [], acc => acc
  | it :: rest, acc =>
    let ws := was_sent acc.1 uid today it.1
    let acc1 :=
      if ws.2 then (ws.1, acc.2)
      else if it.2 ≤ now ∧ now < it.2 + 60 then
        (mark_sent ws.1 uid today it.1, acc.2 ++ [⟨it.1, false⟩])
      else (ws.1, acc.2)
    check_items uid today now rest acc1

/-- One daily-digest block of the loop (bot.py lines 476-482 and 485-492):
when the minute-truncated clock equals the configured time and the key is
not in the ledger, send (content degraded when the looked-up day has no
entry) and mark. -/
def daily_digest (uid : String) (today : Nat) (key : String) (cond : Bool)
    (degraded : Bool) (acc : Store × List Msg) : Store × List Msg :=
  if cond then
    let ws := was_sent acc.1 uid today key
    if ws.2 then (ws.1, acc.2)
    else (mark_sent ws.1 uid today key, acc.2 ++ [⟨key, degraded⟩])
  else acc

/-- The two daily-digest checks of the loop body (bot.py lines 476-492),
morning first, then night. -/
def digests_phase (today_times tomorrow_times : Option (Nat × Nat)) (today now_sec : Nat)
    (u : UserSettings) (uid : String) (st : Store) : Store × List Msg :=
  daily_digest uid today "night" (decide (strftime_hm now_sec = u.night_time))
    tomorrow_times.isNone
    (daily_digest uid today "morning" (decide (strftime_hm now_sec = u.morning_time))
      today_times.isNone (st, []))

/-- The reminder checks of the loop body (bot.py lines 497-539): the iftar
lead reminders, the iftar-now notification and the saharlik lead reminders,
in source order, using PRESETS.get(u.preset, PRESETS[DEFAULT_PRESET]). -/
def reminders_phase (sah_t ift_t today now_sec : Nat) (uid : String) (u : UserSettings)
    (acc : Store × List Msg) : Store × List Msg :=
  let u1 := (dget acc.1.users uid).getD u
  let preset := preset_of u1.preset
  let sah_dt : Int := today * 86400 + sah_t * 60
  let ift_dt : Int := today * 86400 + ift_t * 60
  let now : Int := today * 86400 + now_sec
  let s3 := check_items uid today now
    (preset.iftar.map (fun (mins : Nat) => ("iftar-" ++ toString mins, ift_dt - (mins : Int) * 60))) acc
  let s4 := check_items uid today now [("iftar-now", ift_dt)] s3
  check_items uid today now
    (preset.saharlik.map (fun (mins : Nat) => ("saharlik-" ++ toString mins, sah_dt - (mins : Int) * 60)))
    s4

/-- The body of notification_loop for one user on one tick (bot.py lines
469-539).  today_times and tomorrow_times are the exact lookups done once
per tick (lines 465-466); now is today * 86400 + now_sec.  Sends always
succeed and are returned as the message list. -/
def tick_user (today_times tomorrow_times : Option (Nat × Nat)) (today now_sec : Nat)
    (st : Store) (uid : String) : Store × List Msg :=
  match dget st.users uid with
  | none => (st, [])
  | some u =>
    if u.enabled then
      let s2 := digests_phase today_times tomorrow_times today now_sec u uid st
      match today_times with
      | none => s2
      | some (sah_t, ift_t) => reminders_phase sah_t ift_t today now_sec uid u s2
    else (st, [])

/-- The per-user view of the in-memory ledger. -/
def ledgerOf (st : Store) (uid : String) : Ledger :=
  ((dget st.users uid).map UserSettings.sent_keys).getD []

/-- The dict and ledger well-formedness the running program maintains for a
user: day keys are unique, and (since the loop only ever marks the current
day and days only move forward) no recorded day lies after today. -/
def LedgerDaysOk (st : Store) (uid : String) (today : Nat) : Prop :=
  ((ledgerOf st uid).map Prod.fst).Nodup ∧
    ∀ d ∈ (ledgerOf st uid).map Prod.fst, d ≤ today

/-! ### Dictionary lemmas -/

theorem dget_nil [DecidableEq κ] (k : κ) : dget ([] : List (κ × α)) k = none := rfl

theorem defaultUser_enabled : defaultUser.enabled = true := rfl

theorem defaultUser_preset : defaultUser.preset = DEFAULT_PRESET := rfl

theorem defaultUser_sent_keys : defaultUser.sent_keys = [] := rfl

theorem dget_cons [DecidableEq κ] (e : κ × α) (t : List (κ × α)) (k : κ) :
    dget (e :: t) k = if e.1 = k then some e.2 else dget t k := by
  by_cases h : e.1 = k <;> simp [dget, List.find?, h]

theorem dget_append_of_none [DecidableEq κ] {l1 : List (κ × α)} (l2 : List (κ × α)) (k : κ)
    (h : dget l1 k = none) : dget (l1 ++ l2) k = dget l2 k := by
  induction l1 with
  | nil => rfl
  | cons e t ih =>
    rw [dget_cons] at h
    by_cases he : e.1 = k
    · simp [he] at h
    · rw [List.cons_append, dget_cons, if_neg he]
      exact ih (by simpa [he] using h)

theorem dget_dset [DecidableEq κ] (l : List (κ × α)) (k : κ) (v : α) :
    dget (dset l k v) k = (dget l k).map (fun _ => v) := by
  induction l with
  | nil => rfl
  | cons e t ih =>
    by_cases he : e.1 = k
    · simp [dset, he, dget_cons]
    · simp [dset, he, dget_cons, ih]

theorem dget_dset_ne [DecidableEq κ] (l : List (κ × α)) (k k1 : κ) (v : α) (h : k1 ≠ k) :
    dget (dset l k v) k1 = dget l k1 := by
  induction l with
  | nil => rfl
  | cons e t ih =>
    by_cases he : e.1 = k
    · rw [dset, if_pos he, dget_cons, dget_cons,
        if_neg (fun hh => h (hh.symm)), if_neg (fun hh => h (he ▸ hh).symm)]
    · rw [dset, if_neg he, dget_cons, dget_cons, ih]

theorem dset_append_of_none [DecidableEq κ] {l1 : List (κ × α)} (l2 : List (κ × α)) (k : κ) (v : α)
    (h : dget l1 k = none) : dset (l1 ++ l2) k v = l1 ++ dset l2 k v := by
  induction l1 with
  | nil => rfl
  | cons e t ih =>
    rw [dget_cons] at h
    by_cases he : e.1 = k
    · simp [he] at h
    · rw [List.cons_append, dset, if_neg he, ih (by simpa [he] using h), List.cons_append]

theorem dget_dinsert [DecidableEq κ] (l : List (κ × α)) (k : κ) (v : α) :
    dget (dinsert l k v) k = some v := by
  unfold dinsert
  by_cases h : (dget l k).isSome
  · rw [if_pos h, dget_dset]
    cases hl : dget l k with
    | none => rw [hl] at h; simp at h
    | some w => simp
  · rw [if_neg h]
    rw [dget_append_of_none _ _ (by cases hl : dget l k with
        | none => rfl
        | some w => rw [hl] at h; simp at h)]
    simp [dget_cons]

/-! ### C2: exact resolution -/

/-- C2: for every date present in the schedule table, resolve_day_times
returns exactly the stored pair with isExact = true, and resolve_day_times
returns nothing precisely when the table is empty. -/
theorem c2_resolve_exact_and_total (lines : List String) (d : Nat) :
    (∀ sah ift, load_day_times lines d = some (sah, ift) →
      resolve_day_times lines d = some (d, sah, ift, true))
    ∧ (resolve_day_times lines d = none ↔ load_schedule lines = []) := by
  constructor
  · intro sah ift h
    unfold resolve_day_times
    rw [h]
  · unfold resolve_day_times load_day_times find_nearest_day_times
    cases hs : load_schedule lines with
    | nil => simp [dget_nil]
    | cons e rest =>
      cases hd : dget (e :: rest) d with
      | none => simp
      | some p => simp

/-- C2 witness: a concrete two-row table and the empty table. -/
theorem c2_witness :
    resolve_day_times ["2024-03-03;05:00;18:00", "2024-03-07;05:10;18:10"] 738948 =
      some (738948, 300, 1080, true)
    ∧ resolve_day_times [] 738948 = none :=
  ⟨(c2_resolve_exact_and_total _ 738948).1 300 1080 (by decide),
   (c2_resolve_exact_and_total [] 738948).2.mpr (by decide)⟩

/-! ### C8: disabled users receive nothing -/

/-- C8: a user whose settings have enabled = false gets no message from a
tick, whatever the current time and schedule are: the tick leaves the store
untouched and sends nothing. -/
theorem c8_disabled_user_silent (today_times tomorrow_times : Option (Nat × Nat))
    (today now_sec : Nat) (st : Store) (uid : String) (u : UserSettings)
    (hu : dget st.users uid = some u) (hd : u.enabled = false) :
    tick_user today_times tomorrow_times today now_sec st uid = (st, []) := by
  unfold tick_user
  rw [hu]
  simp [hd]

/-- C8 witness: one concrete disabled user on a tick whose time matches
both digests and an iftar trigger. -/
theorem c8_witness :
    tick_user (some (300, 510)) (some (300, 510)) 739000 30600
      ⟨[("1", { enabled := false })], []⟩ "1" = (⟨[("1", { enabled := false })], []⟩, []) :=
  c8_disabled_user_silent (some (300, 510)) (some (300, 510)) 739000 30600
    ⟨[("1", { enabled := false })], []⟩ "1" { enabled := false } (by decide) rfl

/-! ### C9: preset self-healing -/

/-- C9: a stored user record with an unknown preset name is healed on read:
get_user hands back the record with the default preset, stores the fix in
the users dict, the fix reaches the persisted snapshot on the next
save_users, and the dispatch loop coerces the unknown name to the default
preset lead lists. -/
theorem c9_preset_self_healing (st : Store) (uid : String) (u : UserSettings)
    (hu : dget st.users uid = some u) (hbad : dget PRESETS u.preset = none) :
    (get_user st uid).2.preset = DEFAULT_PRESET
    ∧ dget (get_user st uid).1.users uid = some (get_user st uid).2
    ∧ dget (save_users (get_user st uid).1).persisted uid = some (get_user st uid).2
    ∧ preset_of u.preset = full_preset := by
  have hgu : get_user st uid =
      ({ users := dset st.users uid { u with preset := DEFAULT_PRESET },
         persisted := st.persisted },
       { u with preset := DEFAULT_PRESET }) := by
    unfold get_user
    simp [hu, hbad]
  refine ⟨by rw [hgu], ?_, ?_, ?_⟩
  · rw [hgu]
    show dget (dset st.users uid _) uid = _
    rw [dget_dset, hu]
    rfl
  · rw [hgu]
    show dget (dset st.users uid _) uid = _
    rw [dget_dset, hu]
    rfl
  · unfold preset_of
    rw [hbad]
    rfl

/-- C9 witness: a store whose only user carries preset "bogus". -/
theorem c9_witness :
    (get_user ⟨[("1", { preset := "bogus" })], []⟩ "1").2.preset = DEFAULT_PRESET
    ∧ dget (get_user ⟨[("1", { preset := "bogus" })], []⟩ "1").1.users "1" =
        some (get_user ⟨[("1", { preset := "bogus" })], []⟩ "1").2
    ∧ dget (save_users (get_user ⟨[("1", { preset := "bogus" })], []⟩ "1").1).persisted "1" =
        some (get_user ⟨[("1", { preset := "bogus" })], []⟩ "1").2
    ∧ preset_of "bogus" = full_preset :=
  c9_preset_self_healing _ "1" { preset := "bogus" } (by decide) (by decide)

/-! ### C10: was_sent and mark_sent create-and-persist on miss -/

/-- C10: for a user id absent from the store, was_sent answers false but,
through get_user, appends a default settings record and writes the full
snapshot; mark_sent on the same miss likewise creates the record (with the
fresh key in the ledger) and persists. -/
theorem c10_read_side_effects (st : Store) (uid : String) (d : Nat) (k : String)
    (hu : dget st.users uid = none) :
    (was_sent st uid d k).2 = false
    ∧ (was_sent st uid d k).1.users = st.users ++ [(uid, defaultUser)]
    ∧ (was_sent st uid d k).1.persisted = st.users ++ [(uid, defaultUser)]
    ∧ dget (mark_sent st uid d k).users uid =
        some { defaultUser with sent_keys := [(d, [k])] }
    ∧ (mark_sent st uid d k).persisted = (mark_sent st uid d k).users := by
  have happ : dget (st.users ++ [(uid, defaultUser)]) uid = some defaultUser := by
    rw [dget_append_of_none _ _ hu, dget_cons]
    simp
  have hgu : get_user st uid =
      ({ users := st.users ++ [(uid, defaultUser)],
         persisted := st.users ++ [(uid, defaultUser)] }, defaultUser) := by
    unfold get_user
    simp only [hu, Option.isSome_none, Bool.false_eq_true, if_false, save_users, happ,
      Option.getD_some]
    rw [if_pos (by decide : (dget PRESETS defaultUser.preset).isSome = true)]
  have hdset : dset (st.users ++ [(uid, defaultUser)]) uid
      { defaultUser with sent_keys := [(d, [k])] } =
      st.users ++ [(uid, { defaultUser with sent_keys := [(d, [k])] })] := by
    rw [dset_append_of_none _ _ _ hu]
    simp [dset]
  have hprune : prune [(d, [k])] = [(d, [k])] := rfl
  have hms : mark_sent st uid d k =
      save_users { users := st.users ++ [(uid, { defaultUser with sent_keys := [(d, [k])] })],
                   persisted := st.users ++ [(uid, defaultUser)] } := by
    unfold mark_sent
    rw [hgu]
    simp [defaultUser_sent_keys, mark_ledger, ledger_setdefault, ledger_get, dget_nil,
      dget_cons, dset, hprune, hdset]
  refine ⟨?_, ?_, ?_, ?_, ?_⟩
  · simp [was_sent, hgu, ledger_get, dget_nil, defaultUser_sent_keys]
  · simp [was_sent, hgu]
  · simp [was_sent, hgu]
  · rw [hms]
    simp only [save_users]
    rw [dget_append_of_none _ _ hu, dget_cons]
    simp
  · rw [hms]
    rfl

/-- C10 witness: the empty store. -/
theorem c10_witness :
    (was_sent emptyStore "9" 738950 "morning").2 = false
    ∧ (was_sent emptyStore "9" 738950 "morning").1.users = [] ++ [("9", defaultUser)]
    ∧ (was_sent emptyStore "9" 738950 "morning").1.persisted = [] ++ [("9", defaultUser)]
    ∧ dget (mark_sent emptyStore "9" 738950 "morning").users "9" =
        some { defaultUser with sent_keys := [(738950, ["morning"])] }
    ∧ (mark_sent emptyStore "9" 738950 "morning").persisted =
        (mark_sent emptyStore "9" 738950 "morning").users :=
  c10_read_side_effects emptyStore "9" 738950 "morning" rfl

/-! ### C6: schedule parsing -/

theorem dget_isSome_of_mem_keys [DecidableEq κ] {l : List (κ × α)} {k : κ}
    (h : k ∈ l.map Prod.fst) : ∃ v, dget l k = some v := by
  induction l with
  | nil => simp at h
  | cons e t ih =>
    rw [dget_cons]
    by_cases he : e.1 = k
    · exact ⟨e.2, by rw [if_pos he]⟩
    · rw [if_neg he]
      apply ih
      rcases List.mem_cons.mp h with h1 | h1
      · exact absurd h1.symm he
      · exact h1

/-- C6: blank and comment lines are ignored, short rows are skipped, rows
whose date or either time fails to parse are skipped (parsing is total, so
nothing is fatal), a well-formed row is stored under its date, and a
duplicate date overwrites the earlier entry, so the last occurrence wins. -/
theorem c6_load_schedule_rows :
    (∀ sched line, pystrip line = "" ∨ pystartswith (pystrip line) '#' = true →
      sched_step sched line = sched)
    ∧ (∀ sched line, (line_fields line).length < 3 → sched_step sched line = sched)
    ∧ (∀ sched line, ¬ (pystrip line = "" ∨ pystartswith (pystrip line) '#' = true) →
      ¬ (line_fields line).length < 3 →
      (date_fromisoformat ((line_fields line).getD 0 "") = none ∨
        parse_time_hhmm ((line_fields line).getD 1 "") = none ∨
        parse_time_hhmm ((line_fields line).getD 2 "") = none) →
      sched_step sched line = sched)
    ∧ (∀ sched line day sah ift, ¬ (pystrip line = "" ∨ pystartswith (pystrip line) '#' = true) →
      ¬ (line_fields line).length < 3 →
      date_fromisoformat ((line_fields line).getD 0 "") = some day →
      parse_time_hhmm ((line_fields line).getD 1 "") = some sah →
      parse_time_hhmm ((line_fields line).getD 2 "") = some ift →
      sched_step sched line = dinsert sched day (sah, ift))
    ∧ (∀ (sched : Schedule) (day : Nat) (v : Nat × Nat),
        dget (dinsert sched day v) day = some v) := by
  refine ⟨?_, ?_, ?_, ?_, fun sched day v => dget_dinsert sched day v⟩
  · intro sched line h
    simp only [sched_step]
    rw [if_pos h]
  · intro sched line h
    simp only [sched_step]
    by_cases hb : pystrip line = "" ∨ pystartswith (pystrip line) '#' = true
    · rw [if_pos hb]
    · rw [if_neg hb, if_pos h]
  · intro sched line h1 h2 h3
    simp only [sched_step]
    rw [if_neg h1, if_neg h2]
    cases ht1 : date_fromisoformat ((line_fields line).getD 0 "") <;>
      cases ht2 : parse_time_hhmm ((line_fields line).getD 1 "") <;>
        cases ht3 : parse_time_hhmm ((line_fields line).getD 2 "") <;>
          first
            | rfl
            | (exfalso
               rcases h3 with h | h | h <;> simp_all)
  · intro sched line day sah ift h1 h2 hd hs hi
    simp only [sched_step]
    rw [if_neg h1, if_neg h2, hd, hs, hi]

/-- C6 witness: one concrete line in each category, and a two-row table
where the second row for the same date wins. -/
theorem c6_witness :
    sched_step [(5, (1, 2))] "# comment" = [(5, (1, 2))]
    ∧ sched_step [(5, (1, 2))] "2024-03-03;05:00" = [(5, (1, 2))]
    ∧ sched_step [(5, (1, 2))] "2024-03-33;05:00;18:00" = [(5, (1, 2))]
    ∧ sched_step [] "2024-03-03;05:00;18:00" = dinsert [] 738948 (300, 1080)
    ∧ dget (load_schedule ["2024-03-05;05:00;18:00", "2024-03-05;05:30;18:30"]) 738950 =
        some (330, 1110) :=
  ⟨(c6_load_schedule_rows).1 _ _ (by decide),
   (c6_load_schedule_rows).2.1 _ _ (by decide),
   (c6_load_schedule_rows).2.2.1 _ _ (by decide) (by decide) (Or.inl (by decide)),
   (c6_load_schedule_rows).2.2.2.1 _ _ 738948 300 1080 (by decide) (by decide)
     (by decide) (by decide) (by decide),
   by decide⟩

/-! ### C1: nearest-date resolution -/

theorem pymin_mem [LinearOrder κ] (key : α → κ) (x : α) (xs : List α) :
    pymin key x xs ∈ x :: xs := by
  induction xs generalizing x with
  | nil => exact List.mem_singleton.mpr rfl
  | cons c t ih =>
    have e : pymin key x (c :: t) = pymin key (if key c < key x then c else x) t := rfl
    rw [e]
    rcases List.mem_cons.mp (ih (if key c < key x then c else x)) with h1 | h1
    · rw [h1]
      by_cases hc : key c < key x
      · simp [hc]
      · simp [hc]
    · exact List.mem_cons_of_mem _ (List.mem_cons_of_mem _ h1)

theorem pymin_le [LinearOrder κ] (key : α → κ) (x : α) (xs : List α) :
    ∀ y ∈ x :: xs, key (pymin key x xs) ≤ key y := by
  induction xs generalizing x with
  | nil =>
    intro y hy
    rw [List.mem_singleton] at hy
    rw [hy]
    exact le_refl _
  | cons c t ih =>
    intro y hy
    have e : pymin key x (c :: t) = pymin key (if key c < key x then c else x) t := rfl
    by_cases hc : key c < key x
    · rw [e, if_pos hc]
      rcases List.mem_cons.mp hy with h1 | h1
      · rw [h1]
        exact le_trans (ih c _ (List.mem_cons_self c t)) (le_of_lt hc)
      · rcases List.mem_cons.mp h1 with h2 | h2
        · rw [h2]
          exact ih c _ (List.mem_cons_self c t)
        · exact ih c y (List.mem_cons_of_mem _ h2)
    · rw [e, if_neg hc]
      rcases List.mem_cons.mp hy with h1 | h1
      · rw [h1]
        exact ih x _ (List.mem_cons_self x t)
      · rcases List.mem_cons.mp h1 with h2 | h2
        · rw [h2]
          exact le_trans (ih x _ (List.mem_cons_self x t)) (not_lt.mp hc)
        · exact ih x y (List.mem_cons_of_mem _ h2)

/-- C1: on a non-empty table, find_nearest_day_times returns a stored date
whose key (absolute day distance, then after-the-target preferred, then the
smaller ordinal) is lexicographically minimal over all stored dates; the
claimed tie-break example is checked in the witness. -/
theorem c1_nearest_minimizes (lines : List String) (target : Nat)
    (h : load_schedule lines ≠ []) :
    ∃ d p, find_nearest_day_times lines target = some (d, p)
      ∧ dget (load_schedule lines) d = some p
      ∧ ∀ d1 ∈ (load_schedule lines).map Prod.fst, nkey target d ≤ nkey target d1 := by
  cases hs : load_schedule lines with
  | nil => exact absurd hs h
  | cons e rest =>
    have hmem : pymin (nkey target) e.1 (rest.map Prod.fst) ∈ e.1 :: rest.map Prod.fst :=
      pymin_mem _ _ _
    have hmem2 : pymin (nkey target) e.1 (rest.map Prod.fst) ∈ (e :: rest).map Prod.fst := by
      simpa using hmem
    obtain ⟨p, hp⟩ := dget_isSome_of_mem_keys hmem2
    refine ⟨pymin (nkey target) e.1 (rest.map Prod.fst), p, ?_, ?_, ?_⟩
    · unfold find_nearest_day_times
      rw [hs]
      simp only [hp, Option.getD_some]
    · exact hp
    · intro d1 hd1
      exact pymin_le (nkey target) e.1 (rest.map Prod.fst) d1 (by simpa using hd1)

/-- C1 witness: the spec example — entries on 2024-03-03 and 2024-03-07,
query 2024-03-05 (distance 2 on both sides) resolves to the later date
2024-03-07. -/
theorem c1_witness :
    load_schedule ["2024-03-03;05:00;18:00", "2024-03-07;05:10;18:10"] ≠ []
    ∧ (∃ d p,
        find_nearest_day_times ["2024-03-03;05:00;18:00", "2024-03-07;05:10;18:10"] 738950 =
          some (d, p)
        ∧ dget (load_schedule ["2024-03-03;05:00;18:00", "2024-03-07;05:10;18:10"]) d = some p
        ∧ ∀ d1 ∈ (load_schedule ["2024-03-03;05:00;18:00", "2024-03-07;05:10;18:10"]).map
            Prod.fst, nkey 738950 d ≤ nkey 738950 d1)
    ∧ find_nearest_day_times ["2024-03-03;05:00;18:00", "2024-03-07;05:10;18:10"] 738950 =
        some (738952, (310, 1090)) :=
  ⟨by decide, c1_nearest_minimizes _ 738950 (by decide), by decide⟩

/-! ### Dictionary and ledger well-formedness lemmas -/

theorem dget_eq_none_iff [DecidableEq κ] (l : List (κ × α)) (k : κ) :
    dget l k = none ↔ k ∉ l.map Prod.fst := by
  induction l with
  | nil => simp [dget_nil]
  | cons e t ih =>
    rw [dget_cons, List.map_cons]
    by_cases he : e.1 = k
    · rw [if_pos he]
      simp [he]
    · rw [if_neg he, ih, List.mem_cons]
      constructor
      · intro h1 h2
        rcases h2 with h2 | h2
        · exact he h2.symm
        · exact h1 h2
      · intro h1 h2
        exact h1 (Or.inr h2)

theorem dset_map_fst [DecidableEq κ] (l : List (κ × α)) (k : κ) (v : α) :
    (dset l k v).map Prod.fst = l.map Prod.fst := by
  induction l with
  | nil => rfl
  | cons e t ih =>
    by_cases he : e.1 = k
    · rw [dset, if_pos he]
      simp [he]
    · rw [dset, if_neg he]
      simp [ih]

theorem mem_dset [DecidableEq κ] {l : List (κ × α)} {k : κ} (v : α)
    (h : k ∈ l.map Prod.fst) : (k, v) ∈ dset l k v := by
  induction l with
  | nil => simp at h
  | cons e t ih =>
    by_cases he : e.1 = k
    · rw [dset, if_pos he]
      exact List.mem_cons_self _ _
    · rw [dset, if_neg he]
      refine List.mem_cons_of_mem _ (ih ?_)
      rcases List.mem_cons.mp h with h1 | h1
      · exact absurd h1.symm he
      · exact h1

theorem dget_of_mem_nodup {sk : Ledger} (hn : (sk.map Prod.fst).Nodup)
    {e : Nat × List String} (he : e ∈ sk) : dget sk e.1 = some e.2 := by
  induction sk with
  | nil => simp at he
  | cons a t ih =>
    rw [dget_cons]
    rcases List.mem_cons.mp he with h | h
    · rw [h]
      simp
    · have ha : a.1 ≠ e.1 := by
        intro hh
        have : a.1 ∉ (t.map Prod.fst) := (List.nodup_cons.mp (by simpa using hn)).1
        exact this (hh ▸ List.mem_map_of_mem Prod.fst h)
      rw [if_neg ha]
      exact ih (List.nodup_cons.mp (by simpa using hn)).2 h

theorem setdefault_get (sk : Ledger) (d : Nat) :
    ledger_get (ledger_setdefault sk d) d = ledger_get sk d := by
  unfold ledger_setdefault ledger_get
  by_cases h : (dget sk d).isSome
  · rw [if_pos h]
  · rw [if_neg h]
    cases hd : dget sk d with
    | some v => rw [hd] at h; simp at h
    | none => rw [dget_append_of_none _ _ hd, dget_cons]; simp

theorem setdefault_map_fst (sk : Ledger) (d : Nat) :
    (ledger_setdefault sk d).map Prod.fst =
      if (dget sk d).isSome then sk.map Prod.fst else sk.map Prod.fst ++ [d] := by
  unfold ledger_setdefault
  by_cases h : (dget sk d).isSome <;> simp [h]

theorem setdefault_nodup {sk : Ledger} {d : Nat} (hn : (sk.map Prod.fst).Nodup) :
    ((ledger_setdefault sk d).map Prod.fst).Nodup := by
  rw [setdefault_map_fst]
  by_cases h : (dget sk d).isSome
  · rw [if_pos h]
    exact hn
  · rw [if_neg h]
    have hd : d ∉ sk.map Prod.fst := by
      rw [← dget_eq_none_iff]
      cases hh : dget sk d with
      | some v => rw [hh] at h; simp at h
      | none => rfl
    simp [List.nodup_append, hn, hd]

theorem setdefault_isSome (sk : Ledger) (d : Nat) :
    (dget (ledger_setdefault sk d) d).isSome := by
  unfold ledger_setdefault
  by_cases h : (dget sk d).isSome
  · rw [if_pos h]
    exact h
  · rw [if_neg h]
    cases hd : dget sk d with
    | some v => rw [hd] at h; simp at h
    | none => rw [dget_append_of_none _ _ hd, dget_cons]; simp

/-! ### Sorted-list counting lemmas for the ledger pruning -/

theorem filter_length_lt_of_mem {p : Nat → Bool} {s : List Nat} {x : Nat}
    (hx : x ∈ s) (hpx : p x = false) : (s.filter p).length < s.length := by
  induction s with
  | nil => simp at hx
  | cons a t ih =>
    rcases List.mem_cons.mp hx with h | h
    · rw [List.filter_cons, ← h, hpx]
      simp only [Bool.false_eq_true, if_false, List.length_cons]
      exact Nat.lt_succ_of_le (List.filter_sublist t).length_le
    · rw [List.filter_cons]
      by_cases hpa : p a = true
      · rw [if_pos hpa]
        simpa using ih h
      · rw [if_neg hpa]
        exact Nat.lt_succ_of_lt (ih h)

theorem count_greater_drop {s : List Nat} (hs : s.Pairwise (· < ·)) :
    ∀ {k x : Nat}, x ∈ s.drop k →
      (s.filter (fun y => decide (x < y))).length + k < s.length := by
  induction s with
  | nil =>
    intro k x hx
    simp at hx
  | cons a t ih =>
    intro k x hx
    cases k with
    | zero =>
      rw [List.drop_zero] at hx
      have := filter_length_lt_of_mem (p := fun y => decide (x < y)) hx (by simp)
      omega
    | succ j =>
      rw [List.drop_succ_cons] at hx
      have hxt : x ∈ t := List.mem_of_mem_drop hx
      have ha : a < x := (List.pairwise_cons.mp hs).1 x hxt
      have ih1 := ih hs.of_cons hx
      rw [List.filter_cons, if_neg (by simp [Nat.not_lt.mpr (le_of_lt ha)])]
      simp only [List.length_cons]
      omega

theorem count_greater_take {s : List Nat} (hs : s.Pairwise (· < ·)) :
    ∀ {k x : Nat}, x ∈ s.take k →
      s.length ≤ (s.filter (fun y => decide (x < y))).length + k := by
  induction s with
  | nil =>
    intro k x hx
    simp at hx
  | cons a t ih =>
    intro k x hx
    cases k with
    | zero => simp at hx
    | succ j =>
      rw [List.take_succ_cons] at hx
      rcases List.mem_cons.mp hx with h | h
      · subst h
        have hall : t.filter (fun y => decide (x < y)) = t :=
          List.filter_eq_self.mpr
            (fun b hb => by simpa using (List.pairwise_cons.mp hs).1 b hb)
        rw [List.filter_cons, if_neg (by simp), hall]
        simp only [List.length_cons]
        omega
      · have ih1 := ih hs.of_cons h
        rw [List.filter_cons]
        by_cases hpa : decide (x < a) = true
        · rw [if_pos hpa]
          simp only [List.length_cons]
          omega
        · rw [if_neg hpa]
          simp only [List.length_cons]
          omega

theorem filter_gt_anti (l : List Nat) {x y : Nat} (h : y ≤ x) :
    (l.filter (fun z => decide (x < z))).length ≤
      (l.filter (fun z => decide (y < z))).length := by
  induction l with
  | nil => exact le_refl 0
  | cons a t ih =>
    rw [List.filter_cons, List.filter_cons]
    by_cases h1 : x < a
    · rw [if_pos (by simpa using h1), if_pos (by simpa using lt_of_le_of_lt h h1)]
      simpa using ih
    · by_cases h2 : y < a
      · rw [if_neg (by simpa using h1), if_pos (by simpa using h2)]
        exact le_trans ih (by simp)
      · rw [if_neg (by simpa using h1), if_neg (by simpa using h2)]
        exact ih

theorem sort_pairwise_lt {l : List Nat} (h : l.Nodup) :
    (List.insertionSort (· ≤ ·) l).Pairwise (· < ·) := by
  have hs : List.Sorted (· ≤ ·) (List.insertionSort (· ≤ ·) l) :=
    List.sorted_insertionSort _ l
  have hn : (List.insertionSort (· ≤ ·) l).Nodup :=
    ((List.perm_insertionSort (· ≤ ·) l).nodup_iff).mpr h
  exact (List.Pairwise.and hs hn).imp (fun h12 => lt_of_le_of_ne h12.1 h12.2)

/-- A day is outside the evicted prefix of the sorted day list exactly when
at most 9 recorded days are later than it. -/
theorem not_mem_olds_iff {l : List Nat} (hn : l.Nodup) (hlen : 10 < l.length) {x : Nat}
    (hx : x ∈ l) :
    x ∉ (List.insertionSort (· ≤ ·) l).take ((List.insertionSort (· ≤ ·) l).length - 10) ↔
      (l.filter (fun y => decide (x < y))).length ≤ 9 := by
  have hperm : List.Perm (List.insertionSort (· ≤ ·) l) l := List.perm_insertionSort _ l
  have hsp : (List.insertionSort (· ≤ ·) l).Pairwise (· < ·) := sort_pairwise_lt hn
  have hlens : (List.insertionSort (· ≤ ·) l).length = l.length := hperm.length_eq
  have hcnt : ((List.insertionSort (· ≤ ·) l).filter (fun y => decide (x < y))).length =
      (l.filter (fun y => decide (x < y))).length := (hperm.filter _).length_eq
  have hxs : x ∈ List.insertionSort (· ≤ ·) l := hperm.mem_iff.mpr hx
  constructor
  · intro hnot
    have hsplit : x ∈ (List.insertionSort (· ≤ ·) l).take
          ((List.insertionSort (· ≤ ·) l).length - 10) ∨
        x ∈ (List.insertionSort (· ≤ ·) l).drop
          ((List.insertionSort (· ≤ ·) l).length - 10) := by
      rw [← List.mem_append, List.take_append_drop]
      exact hxs
    rcases hsplit with h | h
    · exact absurd h hnot
    · have := count_greater_drop hsp h
      omega
  · intro hle h
    have := count_greater_take hsp h
    omega

theorem prune_cond (sk : Ledger) :
    (List.insertionSort (· ≤ ·) (sk.map Prod.fst)).length > 10 ↔
      10 < (sk.map Prod.fst).length := by
  rw [(List.perm_insertionSort (· ≤ ·) (sk.map Prod.fst)).length_eq]

theorem prune_eq_of_le {sk : Ledger} (h : ¬ 10 < (sk.map Prod.fst).length) : prune sk = sk := by
  simp only [prune]
  rw [if_neg (fun hc => h ((prune_cond sk).mp hc))]

theorem map_fst_filter (p : Nat → Bool) (sk : Ledger) :
    (sk.filter (fun e => p e.1)).map Prod.fst = (sk.map Prod.fst).filter p := by
  induction sk with
  | nil => rfl
  | cons e t ih => by_cases hp : p e.1 <;> simp [List.filter_cons, hp, ih]

theorem map_fst_filter_notmem (olds : List Nat) (sk : Ledger) :
    (sk.filter (fun e => decide (e.1 ∉ olds))).map Prod.fst =
      (sk.map Prod.fst).filter (fun y => decide (y ∉ olds)) :=
  map_fst_filter (fun y => decide (y ∉ olds)) sk

theorem mem_prune_days_iff {sk : Ledger} (hn : (sk.map Prod.fst).Nodup)
    (hlen : 10 < (sk.map Prod.fst).length) (x : Nat) :
    x ∈ (prune sk).map Prod.fst ↔
      x ∈ sk.map Prod.fst ∧
        ((sk.map Prod.fst).filter (fun y => decide (x < y))).length ≤ 9 := by
  simp only [prune]
  rw [if_pos ((prune_cond sk).mpr hlen)]
  rw [map_fst_filter_notmem, List.mem_filter]
  constructor
  · rintro ⟨h1, h2⟩
    exact ⟨h1, (not_mem_olds_iff hn hlen h1).mp (by simpa using h2)⟩
  · rintro ⟨h1, h2⟩
    exact ⟨h1, by simpa using (not_mem_olds_iff hn hlen h1).mpr h2⟩

theorem mem_prune_iff {sk : Ledger} (hn : (sk.map Prod.fst).Nodup)
    (hlen : 10 < (sk.map Prod.fst).length) (e : Nat × List String) :
    e ∈ prune sk ↔
      e ∈ sk ∧ ((sk.map Prod.fst).filter (fun y => decide (e.1 < y))).length ≤ 9 := by
  simp only [prune]
  rw [if_pos ((prune_cond sk).mpr hlen)]
  rw [List.mem_filter]
  constructor
  · rintro ⟨h1, h2⟩
    exact ⟨h1, (not_mem_olds_iff hn hlen (List.mem_map_of_mem Prod.fst h1)).mp
      (by simpa using h2)⟩
  · rintro ⟨h1, h2⟩
    exact ⟨h1, by simpa using
      (not_mem_olds_iff hn hlen (List.mem_map_of_mem Prod.fst h1)).mpr h2⟩

theorem prune_days_sublist (sk : Ledger) :
    List.Sublist ((prune sk).map Prod.fst) (sk.map Prod.fst) := by
  simp only [prune]
  by_cases h : (List.insertionSort (· ≤ ·) (sk.map Prod.fst)).length > 10
  · rw [if_pos h, map_fst_filter_notmem]
    exact List.filter_sublist _
  · rw [if_neg h]

theorem prune_days_length {sk : Ledger} (hn : (sk.map Prod.fst).Nodup)
    (hlen : 10 < (sk.map Prod.fst).length) :
    ((prune sk).map Prod.fst).length = 10 := by
  simp only [prune]
  rw [if_pos ((prune_cond sk).mpr hlen)]
  rw [map_fst_filter_notmem]
  have hperm : List.Perm (List.insertionSort (· ≤ ·) (sk.map Prod.fst)) (sk.map Prod.fst) :=
    List.perm_insertionSort _ _
  have hsp : (List.insertionSort (· ≤ ·) (sk.map Prod.fst)).Pairwise (· < ·) :=
    sort_pairwise_lt hn
  have hlens : (List.insertionSort (· ≤ ·) (sk.map Prod.fst)).length =
      (sk.map Prod.fst).length := hperm.length_eq
  set s := List.insertionSort (· ≤ ·) (sk.map Prod.fst) with hsdef
  set k := s.length - 10 with hkdef
  have heq : ((sk.map Prod.fst).filter (fun y => decide (y ∉ s.take k))).length =
      (s.filter (fun y => decide (y ∉ s.take k))).length :=
    (hperm.symm.filter _).length_eq
  rw [heq]
  have hfil : s.filter (fun y => decide (y ∉ s.take k)) =
      (s.take k ++ s.drop k).filter (fun y => decide (y ∉ s.take k)) := by
    rw [List.take_append_drop]
  rw [hfil, List.filter_append]
  have htake : (s.take k).filter (fun y => decide (y ∉ s.take k)) = [] := by
    rw [List.filter_eq_nil_iff]
    intro a ha
    simp only [decide_eq_true_eq]
    exact fun hc => hc ha
  have hdrop : (s.drop k).filter (fun y => decide (y ∉ s.take k)) = s.drop k := by
    rw [List.filter_eq_self]
    intro a ha
    simp only [decide_eq_true_eq]
    intro hmem
    have h1 := count_greater_drop hsp ha
    have h2 := count_greater_take hsp hmem
    omega
  rw [htake, hdrop, List.nil_append, List.length_drop]
  omega

theorem prune_evict_lt {sk : Ledger} (hn : (sk.map Prod.fst).Nodup)
    {x y : Nat} (hx : x ∈ sk.map Prod.fst) (hxout : x ∉ (prune sk).map Prod.fst)
    (hy : y ∈ (prune sk).map Prod.fst) : x < y := by
  by_cases hlen : 10 < (sk.map Prod.fst).length
  · have hxcnt : ¬ ((sk.map Prod.fst).filter (fun z => decide (x < z))).length ≤ 9 :=
      fun hc => hxout ((mem_prune_days_iff hn hlen x).mpr ⟨hx, hc⟩)
    have hycnt := ((mem_prune_days_iff hn hlen y).mp hy).2
    by_contra hxy
    have := filter_gt_anti (sk.map Prod.fst) (Nat.not_lt.mp hxy)
    omega
  · rw [prune_eq_of_le hlen] at hxout
    exact absurd hx hxout

/-! ### mark_ledger lemmas -/

theorem mem_keys_of_isSome [DecidableEq κ] {l : List (κ × α)} {k : κ}
    (h : (dget l k).isSome) : k ∈ l.map Prod.fst := by
  by_contra hc
  rw [← dget_eq_none_iff] at hc
  rw [hc] at h
  simp at h

theorem isSome_of_mem_ledger {sk : Ledger} {d : Nat} {k : String}
    (hk : k ∈ ledger_get sk d) : (dget sk d).isSome := by
  cases hd : dget sk d with
  | none =>
    unfold ledger_get at hk
    rw [hd] at hk
    simp at hk
  | some v => rfl

theorem mark_ledger_of_mem {sk : Ledger} {d : Nat} {k : String}
    (hk : k ∈ ledger_get sk d) : mark_ledger sk d k = sk := by
  have hsd : ledger_setdefault sk d = sk := by
    unfold ledger_setdefault
    rw [if_pos (isSome_of_mem_ledger hk)]
  simp only [mark_ledger]
  rw [setdefault_get, if_pos hk, hsd]

theorem mark_ledger_of_not_mem {sk : Ledger} {d : Nat} {k : String}
    (hk : ¬ k ∈ ledger_get sk d) :
    mark_ledger sk d k =
      prune (dset (ledger_setdefault sk d) d (ledger_get sk d ++ [k])) := by
  simp only [mark_ledger]
  rw [setdefault_get, if_neg hk]

theorem dset_setdefault_map_fst (sk : Ledger) (d : Nat) (v : List String) :
    (dset (ledger_setdefault sk d) d v).map Prod.fst =
      (ledger_setdefault sk d).map Prod.fst :=
  dset_map_fst _ _ _

theorem cnt_setdefault_eq (sk : Ledger) (d : Nat) :
    (((ledger_setdefault sk d).map Prod.fst).filter (fun y => decide (d < y))).length =
      ((sk.map Prod.fst).filter (fun y => decide (d < y))).length := by
  rw [setdefault_map_fst]
  by_cases h : (dget sk d).isSome
  · rw [if_pos h]
  · rw [if_neg h, List.filter_append]
    simp

theorem mem_dset_setdefault (sk : Ledger) (d : Nat) (v : List String) :
    (d, v) ∈ dset (ledger_setdefault sk d) d v :=
  mem_dset v (mem_keys_of_isSome (setdefault_isSome sk d))

theorem ledger_get_prune_of_few {X : Ledger} (hn : (X.map Prod.fst).Nodup)
    {d : Nat} {v : List String} (hmem : (d, v) ∈ X)
    (hfew : ((X.map Prod.fst).filter (fun y => decide (d < y))).length ≤ 9) :
    ledger_get (prune X) d = v := by
  by_cases hlen : 10 < (X.map Prod.fst).length
  · have he : (d, v) ∈ prune X := (mem_prune_iff hn hlen _).mpr ⟨hmem, hfew⟩
    have hnd : ((prune X).map Prod.fst).Nodup := (prune_days_sublist X).nodup hn
    unfold ledger_get
    rw [dget_of_mem_nodup hnd he]
    rfl
  · rw [prune_eq_of_le hlen]
    unfold ledger_get
    rw [dget_of_mem_nodup hn hmem]
    rfl

theorem mark_ledger_nodup {sk : Ledger} {d : Nat} {k : String}
    (hn : (sk.map Prod.fst).Nodup) : ((mark_ledger sk d k).map Prod.fst).Nodup := by
  by_cases hk : k ∈ ledger_get sk d
  · rw [mark_ledger_of_mem hk]
    exact hn
  · rw [mark_ledger_of_not_mem hk]
    exact (prune_days_sublist _).nodup (by rw [dset_setdefault_map_fst]; exact setdefault_nodup hn)

/-- mark_ledger at the written day: the stored key list gains the key (when
new), provided at most 9 recorded days are later than the written day (so
the day itself survives pruning). -/
theorem mark_ledger_get_few {sk : Ledger} {d : Nat} {k : String}
    (hn : (sk.map Prod.fst).Nodup)
    (hfew : ((sk.map Prod.fst).filter (fun y => decide (d < y))).length ≤ 9) :
    ledger_get (mark_ledger sk d k) d =
      if k ∈ ledger_get sk d then ledger_get sk d else ledger_get sk d ++ [k] := by
  by_cases hk : k ∈ ledger_get sk d
  · rw [mark_ledger_of_mem hk, if_pos hk]
  · rw [mark_ledger_of_not_mem hk, if_neg hk]
    have hXn : ((dset (ledger_setdefault sk d) d (ledger_get sk d ++ [k])).map Prod.fst).Nodup := by
      rw [dset_setdefault_map_fst]
      exact setdefault_nodup hn
    refine ledger_get_prune_of_few hXn (mem_dset_setdefault sk d _) ?_
    rw [dset_setdefault_map_fst, cnt_setdefault_eq]
    exact hfew

/-- Re-adding a day strictly older than all of the 10 kept days is undone by
the pruning that follows. -/
theorem prune_append_oldest {R : Ledger} {d : Nat} {v : List String}
    (hnr : (R.map Prod.fst).Nodup) (hlen10 : (R.map Prod.fst).length = 10)
    (hd : d ∉ R.map Prod.fst) (hall : ∀ y ∈ R.map Prod.fst, d < y)
    (hcnt : ∀ y ∈ R.map Prod.fst,
      ((R.map Prod.fst).filter (fun z => decide (y < z))).length ≤ 9) :
    prune (R ++ [(d, v)]) = R := by
  have hdays2 : (R ++ [(d, v)]).map Prod.fst = R.map Prod.fst ++ [d] := by
    rw [List.map_append]
    rfl
  have hlen2 : 10 < ((R ++ [(d, v)]).map Prod.fst).length := by
    rw [hdays2, List.length_append, hlen10]
    simp
  have hnd2 : ((R ++ [(d, v)]).map Prod.fst).Nodup := by
    rw [hdays2]
    simp [List.nodup_append, hnr, hd]
  have hcnt_d : (((R ++ [(d, v)]).map Prod.fst).filter
      (fun y => decide (d < y))).length = 10 := by
    rw [hdays2, List.filter_append,
      List.filter_eq_self.mpr (fun b hb => by simpa using hall b hb)]
    simp [hlen10]
  have hcnt_keep : ∀ y ∈ R.map Prod.fst,
      (((R ++ [(d, v)]).map Prod.fst).filter (fun z => decide (y < z))).length ≤ 9 := by
    intro y hy
    rw [hdays2, List.filter_append]
    have hdy : [d].filter (fun z => decide (y < z)) = [] := by
      simp [Nat.not_lt.mpr (le_of_lt (hall y hy))]
    rw [hdy]
    simp only [List.length_append, List.length_nil]
    have := hcnt y hy
    omega
  have hkeep : ∀ e ∈ R ++ [(d, v)],
      (decide (e.1 ∉ (List.insertionSort (· ≤ ·)
        ((R ++ [(d, v)]).map Prod.fst)).take
          ((List.insertionSort (· ≤ ·)
            ((R ++ [(d, v)]).map Prod.fst)).length - 10)) = true) ↔
      e ∈ R := by
    intro e he
    rw [decide_eq_true_eq,
      not_mem_olds_iff hnd2 hlen2 (List.mem_map_of_mem Prod.fst he)]
    rcases List.mem_append.mp he with h1 | h1
    · simp only [iff_true_intro h1, iff_true]
      exact hcnt_keep e.1 (List.mem_map_of_mem Prod.fst h1)
    · rw [List.mem_singleton] at h1
      subst h1
      constructor
      · intro hc
        rw [hcnt_d] at hc
        omega
      · intro hc
        exact absurd (List.mem_map_of_mem Prod.fst hc) hd
  simp only [prune]
  rw [if_pos ((prune_cond _).mpr hlen2)]
  rw [List.filter_append]
  have h1 : R.filter (fun e => decide (e.1 ∉ (List.insertionSort (· ≤ ·)
      ((R ++ [(d, v)]).map Prod.fst)).take
        ((List.insertionSort (· ≤ ·)
          ((R ++ [(d, v)]).map Prod.fst)).length - 10))) = R := by
    rw [List.filter_eq_self]
    intro e he
    exact (hkeep e (List.mem_append_left _ he)).mpr he
  have h2 : [(d, v)].filter (fun e => decide (e.1 ∉ (List.insertionSort (· ≤ ·)
      ((R ++ [(d, v)]).map Prod.fst)).take
        ((List.insertionSort (· ≤ ·)
          ((R ++ [(d, v)]).map Prod.fst)).length - 10))) = [] := by
    rw [List.filter_eq_nil_iff]
    intro e he
    rw [List.mem_singleton] at he
    subst he
    intro hc
    exact absurd ((hkeep _ (List.mem_append_right _ (List.mem_singleton.mpr rfl))).mp hc)
      (fun hmem => hd (List.mem_map_of_mem Prod.fst hmem))
  rw [h1, h2, List.append_nil]

/-- Second mark_sent with the same day and key is a no-op on the ledger. -/
theorem mark_ledger_idem {sk : Ledger} {d : Nat} {k : String}
    (hn : (sk.map Prod.fst).Nodup) :
    mark_ledger (mark_ledger sk d k) d k = mark_ledger sk d k := by
  by_cases hk : k ∈ ledger_get sk d
  · rw [mark_ledger_of_mem hk, mark_ledger_of_mem hk]
  · rw [mark_ledger_of_not_mem hk]
    set X := dset (ledger_setdefault sk d) d (ledger_get sk d ++ [k]) with hX
    have hXdays : X.map Prod.fst = (ledger_setdefault sk d).map Prod.fst :=
      dset_setdefault_map_fst sk d _
    have hXn : (X.map Prod.fst).Nodup := by
      rw [hXdays]
      exact setdefault_nodup hn
    have hdX : d ∈ X.map Prod.fst := by
      rw [hXdays]
      exact mem_keys_of_isSome (setdefault_isSome sk d)
    by_cases hd : d ∈ (prune X).map Prod.fst
    · -- the day survived: its key list now holds k, so the second call is a no-op
      have hfewd : ((X.map Prod.fst).filter (fun y => decide (d < y))).length ≤ 9 := by
        by_cases hlen : 10 < (X.map Prod.fst).length
        · exact ((mem_prune_days_iff hXn hlen d).mp hd).2
        · have hlt := filter_length_lt_of_mem (p := fun y => decide (d < y)) hdX (by simp)
          omega
      have hget : ledger_get (prune X) d = ledger_get sk d ++ [k] :=
        ledger_get_prune_of_few hXn (mem_dset_setdefault sk d _) hfewd
      exact mark_ledger_of_mem (by rw [hget]; exact List.mem_append_right _ (List.mem_singleton.mpr rfl))
    · -- the day itself was evicted: the second call re-adds it and prunes it again
      have hlen : 10 < (X.map Prod.fst).length := by
        by_contra hc
        rw [prune_eq_of_le hc] at hd
        exact hd hdX
      have hlen10 : ((prune X).map Prod.fst).length = 10 := prune_days_length hXn hlen
      have hnr : ((prune X).map Prod.fst).Nodup := (prune_days_sublist X).nodup hXn
      have hall : ∀ y ∈ (prune X).map Prod.fst, d < y :=
        fun y hy => prune_evict_lt hXn hdX hd hy
      have hdget : dget (prune X) d = none := (dget_eq_none_iff _ _).mpr hd
      have hget0 : ledger_get (prune X) d = [] := by
        unfold ledger_get
        rw [hdget]
        rfl
      rw [mark_ledger_of_not_mem (by rw [hget0]; simp)]
      have hsd : ledger_setdefault (prune X) d = prune X ++ [(d, [])] := by
        unfold ledger_setdefault
        rw [hdget]
        rfl
      have hds : dset (ledger_setdefault (prune X) d) d (ledger_get (prune X) d ++ [k]) =
          prune X ++ [(d, [k])] := by
        rw [hsd, hget0, dset_append_of_none _ _ _ hdget]
        simp [dset]
      rw [hds]
      refine prune_append_oldest hnr hlen10 hd hall ?_
      intro y hy
      have hy9 : ((X.map Prod.fst).filter (fun z => decide (y < z))).length ≤ 9 :=
        ((mem_prune_days_iff hXn hlen y).mp hy).2
      have hmono : (((prune X).map Prod.fst).filter (fun z => decide (y < z))).length ≤
          ((X.map Prod.fst).filter (fun z => decide (y < z))).length :=
        ((prune_days_sublist X).filter _).length_le
      omega

/-! ### get_user and store-level bridge lemmas -/

theorem get_user_of_none {st : Store} {uid : String} (hu : dget st.users uid = none) :
    get_user st uid =
      ({ users := st.users ++ [(uid, defaultUser)],
         persisted := st.users ++ [(uid, defaultUser)] }, defaultUser) := by
  have happ : dget (st.users ++ [(uid, defaultUser)]) uid = some defaultUser := by
    rw [dget_append_of_none _ _ hu, dget_cons]
    simp
  unfold get_user
  simp only [hu, Option.isSome_none, Bool.false_eq_true, if_false, save_users, happ,
    Option.getD_some]
  rw [if_pos (by decide : (dget PRESETS defaultUser.preset).isSome = true)]

theorem get_user_of_valid {st : Store} {uid : String} {u : UserSettings}
    (hu : dget st.users uid = some u) (hp : (dget PRESETS u.preset).isSome) :
    get_user st uid = (st, u) := by
  unfold get_user
  simp only [hu, Option.isSome_some, if_true, Option.getD_some, hp]

theorem get_user_of_invalid {st : Store} {uid : String} {u : UserSettings}
    (hu : dget st.users uid = some u) (hp : ¬ (dget PRESETS u.preset).isSome) :
    get_user st uid =
      ({ users := dset st.users uid { u with preset := DEFAULT_PRESET },
         persisted := st.persisted }, { u with preset := DEFAULT_PRESET }) := by
  unfold get_user
  simp [hu, hp]

theorem get_user_sent_keys (st : Store) (uid : String) :
    (get_user st uid).2.sent_keys = ledgerOf st uid := by
  cases hu : dget st.users uid with
  | none =>
    rw [get_user_of_none hu]
    unfold ledgerOf
    rw [hu]
    rfl
  | some u =>
    by_cases hp : (dget PRESETS u.preset).isSome
    · rw [get_user_of_valid hu hp]
      unfold ledgerOf
      rw [hu]
      rfl
    · rw [get_user_of_invalid hu hp]
      unfold ledgerOf
      rw [hu]
      rfl

theorem get_user_uid_present (st : Store) (uid : String) :
    dget (get_user st uid).1.users uid = some (get_user st uid).2 := by
  cases hu : dget st.users uid with
  | none =>
    rw [get_user_of_none hu]
    rw [dget_append_of_none _ _ hu, dget_cons]
    simp
  | some u =>
    by_cases hp : (dget PRESETS u.preset).isSome
    · rw [get_user_of_valid hu hp]
      exact hu
    · rw [get_user_of_invalid hu hp]
      show dget (dset st.users uid _) uid = _
      rw [dget_dset, hu]
      rfl

theorem get_user_ledgerOf (st : Store) (uid : String) :
    ledgerOf (get_user st uid).1 uid = ledgerOf st uid := by
  unfold ledgerOf
  rw [get_user_uid_present]
  simp only [Option.map_some', Option.getD_some]
  exact get_user_sent_keys st uid

theorem mark_sent_users (st : Store) (uid : String) (d : Nat) (k : String) :
    (mark_sent st uid d k).users =
      dset (get_user st uid).1.users uid
        { (get_user st uid).2 with
          sent_keys := mark_ledger (get_user st uid).2.sent_keys d k } := rfl

theorem mark_sent_ledgerOf (st : Store) (uid : String) (d : Nat) (k : String) :
    ledgerOf (mark_sent st uid d k) uid = mark_ledger (ledgerOf st uid) d k := by
  unfold ledgerOf
  rw [mark_sent_users, dget_dset, get_user_uid_present]
  simp only [Option.map_some', Option.getD_some]
  rw [get_user_sent_keys]
  rfl

theorem was_sent_store (st : Store) (uid : String) (d : Nat) (k : String) :
    (was_sent st uid d k).1 = (get_user st uid).1 := rfl

theorem was_sent_bool (st : Store) (uid : String) (d : Nat) (k : String) :
    (was_sent st uid d k).2 = decide (k ∈ ledger_get (ledgerOf st uid) d) := by
  show decide (k ∈ ledger_get (get_user st uid).2.sent_keys d) = _
  rw [get_user_sent_keys]

/-! ### C3: mark_sent idempotence (corrected) -/

/-- C3 counterexample: a fully mark_sent-reachable store whose ledger for
user "u" holds 10 days later than day 0; mark_sent on day 0 inserts the key
and the pruning that follows immediately evicts day 0 again, so was_sent is
false right after mark_sent — the claim as stated fails. -/
theorem c3_counterexample :
    (was_sent (mark_sent ((List.range 10).foldl
        (fun st i => mark_sent st "u" (i + 1) "x") emptyStore) "u" 0 "k") "u" 0 "k").2 =
      false := by decide

/-- C3 [amended]: calling mark_sent twice with the same user, day and key
leaves the user ledger identical to its state after the first call; and
was_sent reports true after one mark_sent call (and stays true after
repeated calls) provided at most 9 days later than the written day are in
the ledger — otherwise the 10-day pruning evicts the day at once. -/
theorem c3_mark_sent_idem (st : Store) (uid : String) (d : Nat) (k : String)
    (hn : ((ledgerOf st uid).map Prod.fst).Nodup) :
    ledgerOf (mark_sent (mark_sent st uid d k) uid d k) uid =
      ledgerOf (mark_sent st uid d k) uid
    ∧ ((((ledgerOf st uid).map Prod.fst).filter (fun y => decide (d < y))).length ≤ 9 →
        (was_sent (mark_sent st uid d k) uid d k).2 = true
        ∧ (was_sent (mark_sent (mark_sent st uid d k) uid d k) uid d k).2 = true) := by
  have hL1 : ledgerOf (mark_sent st uid d k) uid = mark_ledger (ledgerOf st uid) d k :=
    mark_sent_ledgerOf st uid d k
  have hL2 : ledgerOf (mark_sent (mark_sent st uid d k) uid d k) uid =
      mark_ledger (ledgerOf (mark_sent st uid d k) uid) d k :=
    mark_sent_ledgerOf _ uid d k
  have hidem : ledgerOf (mark_sent (mark_sent st uid d k) uid d k) uid =
      ledgerOf (mark_sent st uid d k) uid := by
    rw [hL2, hL1, mark_ledger_idem hn]
  refine ⟨hidem, fun hfew => ?_⟩
  have hmem : k ∈ ledger_get (mark_ledger (ledgerOf st uid) d k) d := by
    rw [mark_ledger_get_few hn hfew]
    by_cases hk : k ∈ ledger_get (ledgerOf st uid) d
    · rw [if_pos hk]
      exact hk
    · rw [if_neg hk]
      exact List.mem_append_right _ (List.mem_singleton.mpr rfl)
  constructor
  · rw [was_sent_bool, hL1]
    simpa using hmem
  · rw [was_sent_bool, hidem, hL1]
    simpa using hmem

/-- C3 witness: a fresh store, day 3, key "k". -/
theorem c3_witness :
    (((ledgerOf emptyStore "u").map Prod.fst).Nodup)
    ∧ ((((ledgerOf emptyStore "u").map Prod.fst).filter
        (fun y => decide (3 < y))).length ≤ 9)
    ∧ ledgerOf (mark_sent (mark_sent emptyStore "u" 3 "k") "u" 3 "k") "u" =
        ledgerOf (mark_sent emptyStore "u" 3 "k") "u"
    ∧ (was_sent (mark_sent emptyStore "u" 3 "k") "u" 3 "k").2 = true :=
  ⟨by decide, by decide,
   (c3_mark_sent_idem emptyStore "u" 3 "k" (by decide)).1,
   ((c3_mark_sent_idem emptyStore "u" 3 "k" (by decide)).2 (by decide)).1⟩

/-! ### C4: ledger pruning on writes (corrected) -/

/-- C4 counterexample: a store loaded with 11 ledger days for one user
(load_users performs no pruning on read); a mark_sent call whose key is
already present changes nothing and in particular does not prune, so the
ledger is not pruned to 10 days on every mark_sent call. -/
theorem c4_counterexample :
    ((ledgerOf (mark_sent
        ⟨[("u", { sent_keys := [(1, ["k"]), (2, ["k"]), (3, ["k"]), (4, ["k"]), (5, ["k"]),
            (6, ["k"]), (7, ["k"]), (8, ["k"]), (9, ["k"]), (10, ["k"]), (11, ["k"])] })], []⟩
        "u" 5 "k") "u").map Prod.fst).length = 11 := by decide

/-- C4 [amended]: on every mark_sent call that inserts a not-yet-present
key, the ledger is pruned to at most 10 days: the kept days are among the
days present after the insertion; nothing is evicted while at most 10 days
are present; with more than 10 days exactly 10 remain; and eviction is
oldest-first in calendar order — every evicted day is older than every kept
day.  (A call whose key is already present leaves the ledger unchanged and
does not prune.) -/
theorem c4_prune_on_insert (st : Store) (uid : String) (d : Nat) (k : String)
    (hn : ((ledgerOf st uid).map Prod.fst).Nodup)
    (hfresh : ¬ k ∈ ledger_get (ledgerOf st uid) d) :
    (∀ x ∈ (ledgerOf (mark_sent st uid d k) uid).map Prod.fst,
        x ∈ (ledger_setdefault (ledgerOf st uid) d).map Prod.fst)
    ∧ (((ledger_setdefault (ledgerOf st uid) d).map Prod.fst).length ≤ 10 →
        (ledgerOf (mark_sent st uid d k) uid).map Prod.fst =
          (ledger_setdefault (ledgerOf st uid) d).map Prod.fst)
    ∧ (10 < ((ledger_setdefault (ledgerOf st uid) d).map Prod.fst).length →
        ((ledgerOf (mark_sent st uid d k) uid).map Prod.fst).length = 10)
    ∧ (∀ x ∈ (ledger_setdefault (ledgerOf st uid) d).map Prod.fst,
        x ∉ (ledgerOf (mark_sent st uid d k) uid).map Prod.fst →
        ∀ y ∈ (ledgerOf (mark_sent st uid d k) uid).map Prod.fst, x < y) := by
  have hL : ledgerOf (mark_sent st uid d k) uid = mark_ledger (ledgerOf st uid) d k :=
    mark_sent_ledgerOf st uid d k
  rw [hL, mark_ledger_of_not_mem hfresh]
  set X := dset (ledger_setdefault (ledgerOf st uid) d) d
    (ledger_get (ledgerOf st uid) d ++ [k]) with hXdef
  have hXdays : X.map Prod.fst = (ledger_setdefault (ledgerOf st uid) d).map Prod.fst :=
    dset_map_fst _ _ _
  have hXn : (X.map Prod.fst).Nodup := by
    rw [hXdays]
    exact setdefault_nodup hn
  refine ⟨?_, ?_, ?_, ?_⟩
  · intro x hx
    rw [← hXdays]
    exact (prune_days_sublist X).subset hx
  · intro hle
    rw [← hXdays] at hle ⊢
    rw [prune_eq_of_le (by omega)]
  · intro hlt
    rw [← hXdays] at hlt
    exact prune_days_length hXn hlt
  · intro x hx hxout y hy
    rw [← hXdays] at hx
    exact prune_evict_lt hXn hx hxout hy

/-- C4 witness: the 12-day spec example — after mark_sent across 12 distinct
days for one user, exactly the 10 most recent days remain — together with
the amended theorem applied on the 11th insertion. -/
theorem c4_witness :
    ((((List.range 12).foldl (fun st i => mark_sent st "u" (700000 + i) "k") emptyStore)
      |> fun st => (ledgerOf st "u").map Prod.fst) =
        [700002, 700003, 700004, 700005, 700006, 700007, 700008, 700009, 700010, 700011])
    ∧ (10 < ((ledger_setdefault (ledgerOf ((List.range 10).foldl
          (fun st i => mark_sent st "u" (700000 + i) "k") emptyStore) "u") 700010).map
            Prod.fst).length →
        ((ledgerOf (mark_sent ((List.range 10).foldl
          (fun st i => mark_sent st "u" (700000 + i) "k") emptyStore) "u" 700010 "k")
            "u").map Prod.fst).length = 10) :=
  ⟨by decide,
   (c4_prune_on_insert ((List.range 10).foldl
      (fun st i => mark_sent st "u" (700000 + i) "k") emptyStore) "u" 700010 "k"
      (by decide) (by decide)).2.2.1⟩

/-! ### Tick-loop support lemmas -/

theorem cnt_bounded_le_nine {sk : Ledger} {today : Nat}
    (hb : ∀ d ∈ sk.map Prod.fst, d ≤ today) :
    ((sk.map Prod.fst).filter (fun y => decide (today < y))).length ≤ 9 := by
  have h0 : (sk.map Prod.fst).filter (fun y => decide (today < y)) = [] :=
    List.filter_eq_nil_iff.mpr (fun a ha => by simpa using Nat.not_lt.mpr (hb a ha))
  rw [h0]
  simp

theorem mark_ledger_days_subset {sk : Ledger} {d : Nat} {k : String} :
    ∀ x ∈ (mark_ledger sk d k).map Prod.fst, x ∈ sk.map Prod.fst ∨ x = d := by
  intro x hx
  by_cases hk : k ∈ ledger_get sk d
  · rw [mark_ledger_of_mem hk] at hx
    exact Or.inl hx
  · rw [mark_ledger_of_not_mem hk] at hx
    have hxs := (prune_days_sublist _).subset hx
    rw [dset_setdefault_map_fst, setdefault_map_fst] at hxs
    by_cases hh : (dget sk d).isSome
    · rw [if_pos hh] at hxs
      exact Or.inl hxs
    · rw [if_neg hh] at hxs
      rcases List.mem_append.mp hxs with h | h
      · exact Or.inl h
      · right
        simpa using h

theorem mark_ledger_get_today_self {sk : Ledger} {today : Nat} {k : String}
    (hn : (sk.map Prod.fst).Nodup) (hb : ∀ d ∈ sk.map Prod.fst, d ≤ today) :
    k ∈ ledger_get (mark_ledger sk today k) today := by
  rw [mark_ledger_get_few hn (cnt_bounded_le_nine hb)]
  by_cases hk : k ∈ ledger_get sk today
  · rw [if_pos hk]
    exact hk
  · rw [if_neg hk]
    exact List.mem_append_right _ (List.mem_singleton.mpr rfl)

theorem mark_ledger_get_today_other {sk : Ledger} {today : Nat} {k k1 : String}
    (hn : (sk.map Prod.fst).Nodup) (hb : ∀ d ∈ sk.map Prod.fst, d ≤ today)
    (hne : k1 ≠ k) :
    k1 ∈ ledger_get (mark_ledger sk today k) today ↔ k1 ∈ ledger_get sk today := by
  rw [mark_ledger_get_few hn (cnt_bounded_le_nine hb)]
  by_cases hk : k ∈ ledger_get sk today
  · rw [if_pos hk]
  · rw [if_neg hk]
    simp [hne]

theorem LedgerDaysOk_iff (st : Store) (uid : String) (today : Nat) :
    LedgerDaysOk st uid today ↔
      ((ledgerOf st uid).map Prod.fst).Nodup ∧
        ∀ d ∈ (ledgerOf st uid).map Prod.fst, d ≤ today := Iff.rfl

theorem was_sent_inv {st : Store} {uid : String} {today d : Nat} {k : String}
    (h : LedgerDaysOk st uid today) :
    LedgerDaysOk (was_sent st uid d k).1 uid today := by
  rw [LedgerDaysOk_iff] at h ⊢
  rw [was_sent_store, get_user_ledgerOf]
  exact h

theorem mark_sent_inv {st : Store} {uid : String} {today : Nat} {k : String}
    (h : LedgerDaysOk st uid today) :
    LedgerDaysOk (mark_sent st uid today k) uid today := by
  rw [LedgerDaysOk_iff] at h ⊢
  rw [mark_sent_ledgerOf]
  refine ⟨mark_ledger_nodup h.1, fun d hd => ?_⟩
  rcases mark_ledger_days_subset d hd with h1 | h1
  · exact h.2 d h1
  · omega

theorem mark_sent_get_today_self {st : Store} {uid : String} {today : Nat} {k : String}
    (h : LedgerDaysOk st uid today) :
    k ∈ ledger_get (ledgerOf (mark_sent st uid today k) uid) today := by
  rw [mark_sent_ledgerOf]
  exact mark_ledger_get_today_self h.1 h.2

theorem mark_sent_get_today_other {st : Store} {uid : String} {today : Nat} {k k1 : String}
    (h : LedgerDaysOk st uid today) (hne : k1 ≠ k) :
    k1 ∈ ledger_get (ledgerOf (mark_sent st uid today k) uid) today ↔
      k1 ∈ ledger_get (ledgerOf st uid) today := by
  rw [mark_sent_ledgerOf]
  exact mark_ledger_get_today_other h.1 h.2 hne

theorem preset_of_default : preset_of DEFAULT_PRESET = full_preset := by decide

theorem get_user_preset_of {st : Store} {uid : String} {u : UserSettings}
    (hu : dget st.users uid = some u) :
    preset_of (get_user st uid).2.preset = preset_of u.preset := by
  by_cases hp : (dget PRESETS u.preset).isSome
  · rw [get_user_of_valid hu hp]
  · rw [get_user_of_invalid hu hp]
    show preset_of DEFAULT_PRESET = preset_of u.preset
    rw [preset_of_default]
    unfold preset_of
    rw [Option.not_isSome_iff_eq_none.mp hp]
    rfl

theorem mark_sent_record (st : Store) (uid : String) (d : Nat) (k : String) :
    dget (mark_sent st uid d k).users uid =
      some { (get_user st uid).2 with
             sent_keys := mark_ledger (get_user st uid).2.sent_keys d k } := by
  rw [mark_sent_users, dget_dset, get_user_uid_present]
  rfl

theorem was_sent_record (st : Store) (uid : String) (d : Nat) (k : String) :
    dget (was_sent st uid d k).1.users uid = some (get_user st uid).2 := by
  rw [was_sent_store]
  exact get_user_uid_present st uid

/-- Through one daily-digest block the user record stays present and its
effective preset is unchanged. -/
theorem daily_digest_record {uid : String} {today : Nat} {key : String} {cond degraded : Bool}
    {acc : Store × List Msg} {u : UserSettings} (hu : dget acc.1.users uid = some u) :
    ∃ u1, dget (daily_digest uid today key cond degraded acc).1.users uid = some u1
      ∧ preset_of u1.preset = preset_of u.preset := by
  unfold daily_digest
  by_cases hc : cond = true
  · rw [if_pos hc]
    by_cases hb : (was_sent acc.1 uid today key).2 = true
    · rw [if_pos hb]
      exact ⟨(get_user acc.1 uid).2, was_sent_record acc.1 uid today key,
        get_user_preset_of hu⟩
    · rw [if_neg hb]
      refine ⟨_, mark_sent_record (was_sent acc.1 uid today key).1 uid today key, ?_⟩
      show preset_of (get_user (was_sent acc.1 uid today key).1 uid).2.preset = _
      rw [get_user_preset_of (was_sent_record acc.1 uid today key)]
      exact get_user_preset_of hu
  · rw [if_neg hc]
    exact ⟨u, hu, rfl⟩

theorem daily_digest_inv {uid : String} {today : Nat} {key : String} {cond degraded : Bool}
    {acc : Store × List Msg} (h : LedgerDaysOk acc.1 uid today) :
    LedgerDaysOk (daily_digest uid today key cond degraded acc).1 uid today := by
  unfold daily_digest
  by_cases hc : cond = true
  · rw [if_pos hc]
    by_cases hb : (was_sent acc.1 uid today key).2 = true
    · rw [if_pos hb]
      exact was_sent_inv (d := today) (k := key) h
    · rw [if_neg hb]
      exact mark_sent_inv (was_sent_inv (d := today) (k := key) h)
  · rw [if_neg hc]
    exact h

theorem daily_digest_ledger_other {uid : String} {today : Nat} {key k : String}
    {cond degraded : Bool} {acc : Store × List Msg}
    (h : LedgerDaysOk acc.1 uid today) (hne : k ≠ key) :
    k ∈ ledger_get (ledgerOf (daily_digest uid today key cond degraded acc).1 uid) today ↔
      k ∈ ledger_get (ledgerOf acc.1 uid) today := by
  unfold daily_digest
  by_cases hc : cond = true
  · rw [if_pos hc]
    by_cases hb : (was_sent acc.1 uid today key).2 = true
    · rw [if_pos hb]
      rw [was_sent_store, get_user_ledgerOf]
    · rw [if_neg hb]
      rw [mark_sent_get_today_other (was_sent_inv h) hne, was_sent_store, get_user_ledgerOf]
  · rw [if_neg hc]

theorem daily_digest_msg_other {uid : String} {today : Nat} {key : String}
    {cond degraded : Bool} {acc : Store × List Msg} {msg : Msg} (hne : msg.key ≠ key) :
    msg ∈ (daily_digest uid today key cond degraded acc).2 ↔ msg ∈ acc.2 := by
  unfold daily_digest
  by_cases hc : cond = true
  · rw [if_pos hc]
    by_cases hb : (was_sent acc.1 uid today key).2 = true
    · rw [if_pos hb]
    · rw [if_neg hb]
      show msg ∈ acc.2 ++ [⟨key, degraded⟩] ↔ _
      rw [List.mem_append]
      simp only [List.mem_singleton]
      constructor
      · rintro (h | h)
        · exact h
        · exact absurd (congrArg Msg.key h) hne
      · exact Or.inl
  · rw [if_neg hc]

theorem daily_digest_msgs {uid : String} {today : Nat} {key : String}
    {cond degraded : Bool} {acc : Store × List Msg} :
    ∀ msg ∈ (daily_digest uid today key cond degraded acc).2,
      msg ∈ acc.2 ∨ msg = ⟨key, degraded⟩ := by
  intro msg hm
  unfold daily_digest at hm
  by_cases hc : cond = true
  · rw [if_pos hc] at hm
    by_cases hb : (was_sent acc.1 uid today key).2 = true
    · rw [if_pos hb] at hm
      exact Or.inl hm
    · rw [if_neg hb] at hm
      rcases List.mem_append.mp hm with h | h
      · exact Or.inl h
      · exact Or.inr (List.mem_singleton.mp h)
  · rw [if_neg hc] at hm
    exact Or.inl hm

/-- A daily digest fires exactly when the clock condition holds and the key
is unsent when it is checked. -/
theorem daily_digest_fire {uid : String} {today : Nat} {key : String}
    {cond degraded : Bool} {acc : Store × List Msg}
    (hmsg : (Msg.mk key degraded) ∉ acc.2) :
    (Msg.mk key degraded) ∈ (daily_digest uid today key cond degraded acc).2 ↔
      (cond = true ∧ ¬ key ∈ ledger_get (ledgerOf acc.1 uid) today) := by
  unfold daily_digest
  by_cases hc : cond = true
  · rw [if_pos hc]
    by_cases hb : (was_sent acc.1 uid today key).2 = true
    · rw [if_pos hb]
      rw [was_sent_bool, decide_eq_true_eq] at hb
      exact iff_of_false hmsg (fun hcon => hcon.2 hb)
    · rw [if_neg hb]
      rw [was_sent_bool] at hb
      show (Msg.mk key degraded) ∈ acc.2 ++ [⟨key, degraded⟩] ↔ _
      exact iff_of_true (by simp) ⟨hc, fun hcon => hb (by simpa using hcon)⟩
  · rw [if_neg hc]
    exact iff_of_false hmsg (fun hcon => hc hcon.1)

/-- Reminder items whose keys differ from k do not touch the key k: neither
its presence in the day ledger nor a message carrying it. -/
theorem check_items_other (uid : String) (today : Nat) (now : Int) (k : String) :
    ∀ items : List (String × Int), (∀ it ∈ items, it.1 ≠ k) →
      ∀ acc : Store × List Msg, LedgerDaysOk acc.1 uid today →
      LedgerDaysOk (check_items uid today now items acc).1 uid today
      ∧ (k ∈ ledger_get (ledgerOf (check_items uid today now items acc).1 uid) today ↔
          k ∈ ledger_get (ledgerOf acc.1 uid) today)
      ∧ ∀ degraded : Bool,
          ((Msg.mk k degraded) ∈ (check_items uid today now items acc).2 ↔
            (Msg.mk k degraded) ∈ acc.2) := by
  intro items
  induction items with
  | nil =>
    intro _ acc hinv
    exact ⟨hinv, Iff.rfl, fun _ => Iff.rfl⟩
  | cons it rest ih =>
    intro hk acc hinv
    have hne : it.1 ≠ k := hk it (List.mem_cons_self it rest)
    have hrest : ∀ it1 ∈ rest, it1.1 ≠ k := fun it1 h1 => hk it1 (List.mem_cons_of_mem it h1)
    simp only [check_items]
    have hlgw : ledgerOf (was_sent acc.1 uid today it.1).1 uid = ledgerOf acc.1 uid := by
      rw [was_sent_store, get_user_ledgerOf]
    by_cases hb : (was_sent acc.1 uid today it.1).2 = true
    · rw [if_pos hb]
      have h2 := ih hrest ((was_sent acc.1 uid today it.1).1, acc.2)
        (was_sent_inv (d := today) (k := it.1) hinv)
      refine ⟨h2.1, ?_, h2.2.2⟩
      rw [h2.2.1]
      show k ∈ ledger_get (ledgerOf (was_sent acc.1 uid today it.1).1 uid) today ↔ _
      rw [hlgw]
    · rw [if_neg hb]
      by_cases hw : it.2 ≤ now ∧ now < it.2 + 60
      · rw [if_pos hw]
        have h2 := ih hrest
          (mark_sent (was_sent acc.1 uid today it.1).1 uid today it.1, acc.2 ++ [⟨it.1, false⟩])
          (mark_sent_inv (was_sent_inv (d := today) (k := it.1) hinv))
        refine ⟨h2.1, ?_, fun degraded => ?_⟩
        · rw [h2.2.1]
          show k ∈ ledger_get
            (ledgerOf (mark_sent (was_sent acc.1 uid today it.1).1 uid today it.1) uid) today ↔ _
          rw [mark_sent_get_today_other (was_sent_inv (d := today) (k := it.1) hinv)
            (fun hh => hne hh.symm), hlgw]
        · rw [h2.2.2 degraded]
          show (Msg.mk k degraded) ∈ acc.2 ++ [⟨it.1, false⟩] ↔ _
          rw [List.mem_append]
          simp only [List.mem_singleton]
          constructor
          · rintro (h | h)
            · exact h
            · exact absurd (congrArg Msg.key h).symm hne
          · exact Or.inl
      · rw [if_neg hw]
        have h2 := ih hrest ((was_sent acc.1 uid today it.1).1, acc.2)
          (was_sent_inv (d := today) (k := it.1) hinv)
        refine ⟨h2.1, ?_, h2.2.2⟩
        rw [h2.2.1]
        show k ∈ ledger_get (ledgerOf (was_sent acc.1 uid today it.1).1 uid) today ↔ _
        rw [hlgw]

/-- The reminder carrying key k fires exactly when k is unsent at the time
it is reached and its trigger window holds; afterwards the key is marked.
The item keys must be duplicate-free and no message with key k may have
been collected yet. -/
theorem check_items_target (uid : String) (today : Nat) (now : Int) (k : String) (t : Int) :
    ∀ items : List (String × Int), (items.map Prod.fst).Nodup → (k, t) ∈ items →
      ∀ acc : Store × List Msg, LedgerDaysOk acc.1 uid today →
        (Msg.mk k false) ∉ acc.2 →
      LedgerDaysOk (check_items uid today now items acc).1 uid today
      ∧ ((Msg.mk k false) ∈ (check_items uid today now items acc).2 ↔
          (¬ k ∈ ledger_get (ledgerOf acc.1 uid) today ∧ t ≤ now ∧ now < t + 60))
      ∧ ((t ≤ now ∧ now < t + 60) →
          k ∈ ledger_get (ledgerOf (check_items uid today now items acc).1 uid) today) := by
  intro items
  induction items with
  | nil =>
    intro _ hmem
    simp at hmem
  | cons it rest ih =>
    intro hnd hmem acc hinv hmsg
    have hlgw : ledgerOf (was_sent acc.1 uid today it.1).1 uid = ledgerOf acc.1 uid := by
      rw [was_sent_store, get_user_ledgerOf]
    by_cases hit : it.1 = k
    · have hitt : it = (k, t) := by
        rcases List.mem_cons.mp hmem with h | h
        · exact h.symm
        · exfalso
          have hmm := List.mem_map_of_mem Prod.fst h
          rw [show ((k, t) : String × Int).1 = k from rfl, ← hit] at hmm
          exact (List.nodup_cons.mp (by simpa using hnd)).1 hmm
      have hrest : ∀ it1 ∈ rest, it1.1 ≠ k := by
        intro it1 h1 hc
        have hmm := List.mem_map_of_mem Prod.fst h1
        rw [hc, ← hit] at hmm
        exact (List.nodup_cons.mp (by simpa using hnd)).1 hmm
      have ht : it.2 = t := congrArg Prod.snd hitt
      simp only [check_items, hit, ht]
      by_cases hb : (was_sent acc.1 uid today k).2 = true
      · rw [if_pos hb]
        have hbk : k ∈ ledger_get (ledgerOf acc.1 uid) today := by
          rw [was_sent_bool] at hb
          simpa using hb
        have h2 := check_items_other uid today now k rest hrest
          ((was_sent acc.1 uid today k).1, acc.2) (was_sent_inv (d := today) (k := k) hinv)
        refine ⟨h2.1, ?_, fun hw => ?_⟩
        · rw [h2.2.2 false]
          constructor
          · intro h
            exact absurd h hmsg
          · rintro ⟨hno, -⟩
            exact absurd hbk hno
        · rw [h2.2.1]
          show k ∈ ledger_get (ledgerOf (was_sent acc.1 uid today k).1 uid) today
          rw [was_sent_store, get_user_ledgerOf]
          exact hbk
      · rw [if_neg hb]
        have hbk : ¬ k ∈ ledger_get (ledgerOf acc.1 uid) today := by
          rw [was_sent_bool] at hb
          intro hc
          exact hb (by simpa using hc)
        by_cases hw : t ≤ now ∧ now < t + 60
        · rw [if_pos hw]
          have h2 := check_items_other uid today now k rest hrest
            (mark_sent (was_sent acc.1 uid today k).1 uid today k, acc.2 ++ [⟨k, false⟩])
            (mark_sent_inv (was_sent_inv (d := today) (k := k) hinv))
          refine ⟨h2.1, ?_, fun _ => ?_⟩
          · rw [h2.2.2 false]
            show (Msg.mk k false) ∈ acc.2 ++ [⟨k, false⟩] ↔ _
            rw [List.mem_append]
            simp only [List.mem_singleton]
            exact iff_of_true (Or.inr trivial) ⟨hbk, hw⟩
          · rw [h2.2.1]
            show k ∈ ledger_get
              (ledgerOf (mark_sent (was_sent acc.1 uid today k).1 uid today k) uid) today
            exact mark_sent_get_today_self (was_sent_inv (d := today) (k := k) hinv)
        · rw [if_neg hw]
          have h2 := check_items_other uid today now k rest hrest
            ((was_sent acc.1 uid today k).1, acc.2) (was_sent_inv (d := today) (k := k) hinv)
          refine ⟨h2.1, ?_, fun hwc => absurd hwc hw⟩
          rw [h2.2.2 false]
          constructor
          · intro h
            exact absurd h hmsg
          · rintro ⟨-, hwc⟩
            exact absurd hwc hw
    · have hmem1 : (k, t) ∈ rest := by
        rcases List.mem_cons.mp hmem with h | h
        · exact absurd (congrArg Prod.fst h).symm hit
        · exact h
      have hnd1 : (rest.map Prod.fst).Nodup := (List.nodup_cons.mp (by simpa using hnd)).2
      have hnek : k ≠ it.1 := fun h => hit h.symm
      simp only [check_items]
      by_cases hb : (was_sent acc.1 uid today it.1).2 = true
      · rw [if_pos hb]
        have h2 := ih hnd1 hmem1 ((was_sent acc.1 uid today it.1).1, acc.2)
          (was_sent_inv (d := today) (k := it.1) hinv) hmsg
        refine ⟨h2.1, ?_, h2.2.2⟩
        rw [h2.2.1]
        show (¬ k ∈ ledger_get (ledgerOf (was_sent acc.1 uid today it.1).1 uid) today ∧ _) ↔ _
        rw [hlgw]
      · rw [if_neg hb]
        by_cases hw2 : it.2 ≤ now ∧ now < it.2 + 60
        · rw [if_pos hw2]
          have hmsg1 : (Msg.mk k false) ∉ acc.2 ++ [⟨it.1, false⟩] := by
            rw [List.mem_append]
            rintro (h | h)
            · exact hmsg h
            · rw [List.mem_singleton] at h
              exact hnek (congrArg Msg.key h)
          have h2 := ih hnd1 hmem1
            (mark_sent (was_sent acc.1 uid today it.1).1 uid today it.1, acc.2 ++ [⟨it.1, false⟩])
            (mark_sent_inv (was_sent_inv (d := today) (k := it.1) hinv)) hmsg1
          refine ⟨h2.1, ?_, h2.2.2⟩
          rw [h2.2.1]
          have hlg2 : k ∈ ledger_get
              (ledgerOf (mark_sent (was_sent acc.1 uid today it.1).1 uid today it.1) uid) today ↔
              k ∈ ledger_get (ledgerOf acc.1 uid) today := by
            rw [mark_sent_get_today_other (was_sent_inv (d := today) (k := it.1) hinv) hnek, hlgw]
          constructor
          · rintro ⟨h3, h4⟩
            exact ⟨fun hc => h3 (hlg2.mpr hc), h4⟩
          · rintro ⟨h3, h4⟩
            exact ⟨fun hc => h3 (hlg2.mp hc), h4⟩
        · rw [if_neg hw2]
          have h2 := ih hnd1 hmem1 ((was_sent acc.1 uid today it.1).1, acc.2)
            (was_sent_inv (d := today) (k := it.1) hinv) hmsg
          refine ⟨h2.1, ?_, h2.2.2⟩
          rw [h2.2.1]
          show (¬ k ∈ ledger_get (ledgerOf (was_sent acc.1 uid today it.1).1 uid) today ∧ _) ↔ _
          rw [hlgw]

/-! ### Phase-level lemmas for the tick body -/

theorem preset_of_cases (p : String) :
    preset_of p = full_preset ∨ preset_of p = short_preset ∨ preset_of p = minimal_preset := by
  simp only [preset_of, PRESETS, dget_cons, dget_nil]
  by_cases h1 : ("full" : String) = p <;> by_cases h2 : ("short" : String) = p <;>
    by_cases h3 : ("minimal" : String) = p <;> simp [h1, h2, h3]

theorem tick_user_disabled {st : Store} {uid : String} {u : UserSettings}
    (hu : dget st.users uid = some u) (hd : u.enabled = false)
    (tt tmt : Option (Nat × Nat)) (today now_sec : Nat) :
    tick_user tt tmt today now_sec st uid = (st, []) := by
  unfold tick_user
  rw [hu]
  simp [hd]

theorem tick_user_eq_some {st : Store} {uid : String} {u : UserSettings}
    (hu : dget st.users uid = some u) (hen : u.enabled = true)
    (sah_t ift_t : Nat) (tmt : Option (Nat × Nat)) (today now_sec : Nat) :
    tick_user (some (sah_t, ift_t)) tmt today now_sec st uid =
      reminders_phase sah_t ift_t today now_sec uid u
        (digests_phase (some (sah_t, ift_t)) tmt today now_sec u uid st) := by
  simp only [tick_user, hu, hen, if_true]

theorem tick_user_eq_none {st : Store} {uid : String} {u : UserSettings}
    (hu : dget st.users uid = some u) (hen : u.enabled = true)
    (tmt : Option (Nat × Nat)) (today now_sec : Nat) :
    tick_user none tmt today now_sec st uid =
      digests_phase none tmt today now_sec u uid st := by
  simp only [tick_user, hu, hen, if_true]

theorem digests_phase_inv {tt tmt : Option (Nat × Nat)} {today now_sec : Nat}
    {u : UserSettings} {uid : String} {st : Store} (h : LedgerDaysOk st uid today) :
    LedgerDaysOk (digests_phase tt tmt today now_sec u uid st).1 uid today :=
  daily_digest_inv (daily_digest_inv h)

theorem digests_phase_record {tt tmt : Option (Nat × Nat)} {today now_sec : Nat}
    {u u0 : UserSettings} {uid : String} {st : Store}
    (hu : dget st.users uid = some u0) :
    ∃ u2, dget (digests_phase tt tmt today now_sec u uid st).1.users uid = some u2
      ∧ preset_of u2.preset = preset_of u0.preset := by
  obtain ⟨u1, hu1, hp1⟩ := @daily_digest_record _ today "morning"
    (decide (strftime_hm now_sec = u.morning_time)) tt.isNone (st, ([] : List Msg)) _ hu
  obtain ⟨u2, hu2, hp2⟩ := @daily_digest_record _ _ "night"
    (decide (strftime_hm now_sec = u.night_time)) tmt.isNone _ _ hu1
  exact ⟨u2, hu2, hp2.trans hp1⟩

theorem digests_phase_ledger_other {tt tmt : Option (Nat × Nat)} {today now_sec : Nat}
    {u : UserSettings} {uid : String} {st : Store} {k : String}
    (h : LedgerDaysOk st uid today) (hm : k ≠ "morning") (hn : k ≠ "night") :
    k ∈ ledger_get (ledgerOf (digests_phase tt tmt today now_sec u uid st).1 uid) today ↔
      k ∈ ledger_get (ledgerOf st uid) today := by
  unfold digests_phase
  rw [daily_digest_ledger_other (daily_digest_inv h) hn, daily_digest_ledger_other h hm]

theorem digests_phase_msg_other {tt tmt : Option (Nat × Nat)} {today now_sec : Nat}
    {u : UserSettings} {uid : String} {st : Store} {msg : Msg}
    (hm : msg.key ≠ "morning") (hn : msg.key ≠ "night") :
    msg ∉ (digests_phase tt tmt today now_sec u uid st).2 := by
  unfold digests_phase
  rw [daily_digest_msg_other hn, daily_digest_msg_other hm]
  simp

theorem digests_phase_msgs {tt tmt : Option (Nat × Nat)} {today now_sec : Nat}
    {u : UserSettings} {uid : String} {st : Store} :
    ∀ msg ∈ (digests_phase tt tmt today now_sec u uid st).2,
      msg = ⟨"morning", tt.isNone⟩ ∨ msg = ⟨"night", tmt.isNone⟩ := by
  intro msg hm
  rcases daily_digest_msgs msg hm with h | h
  · rcases daily_digest_msgs msg h with h1 | h1
    · simp at h1
    · exact Or.inl h1
  · exact Or.inr h

theorem digests_phase_morning_fire {tt tmt : Option (Nat × Nat)} {today now_sec : Nat}
    {u : UserSettings} {uid : String} {st : Store} :
    (Msg.mk "morning" tt.isNone) ∈ (digests_phase tt tmt today now_sec u uid st).2 ↔
      (decide (strftime_hm now_sec = u.morning_time) = true
        ∧ ¬ "morning" ∈ ledger_get (ledgerOf st uid) today) := by
  unfold digests_phase
  rw [daily_digest_msg_other (by simp)]
  exact daily_digest_fire (by simp)

theorem digests_phase_night_fire {tt tmt : Option (Nat × Nat)} {today now_sec : Nat}
    {u : UserSettings} {uid : String} {st : Store} (h : LedgerDaysOk st uid today) :
    (Msg.mk "night" tmt.isNone) ∈ (digests_phase tt tmt today now_sec u uid st).2 ↔
      (decide (strftime_hm now_sec = u.night_time) = true
        ∧ ¬ "night" ∈ ledger_get (ledgerOf st uid) today) := by
  unfold digests_phase
  rw [daily_digest_fire (by rw [daily_digest_msg_other (by simp)]; simp)]
  rw [daily_digest_ledger_other h (by decide)]

/-- The iftar lead reminder with key "iftar-m" inside the reminder phase:
it fires exactly when unsent and inside its one-minute trigger window, and
the window implies it is marked afterwards. -/
theorem reminders_phase_iftar (sah_t ift_t today now_sec : Nat) (uid : String)
    (u u2 : UserSettings) (acc : Store × List Msg) (P : Preset) (m : Nat)
    (hrec : dget acc.1.users uid = some u2) (hP : preset_of u2.preset = P)
    (hinv : LedgerDaysOk acc.1 uid today)
    (hmsg : (Msg.mk ("iftar-" ++ toString m) false) ∉ acc.2)
    (hm : m ∈ P.iftar)
    (hnd : (P.iftar.map (fun mins => "iftar-" ++ toString mins)).Nodup)
    (hnow : "iftar-now" ≠ "iftar-" ++ toString m)
    (hsah : ∀ mins ∈ P.saharlik, "saharlik-" ++ toString mins ≠ "iftar-" ++ toString m) :
    ((Msg.mk ("iftar-" ++ toString m) false) ∈
        (reminders_phase sah_t ift_t today now_sec uid u acc).2 ↔
      (¬ ("iftar-" ++ toString m) ∈ ledger_get (ledgerOf acc.1 uid) today
        ∧ (today : Int) * 86400 + ift_t * 60 - (m : Int) * 60 ≤ (today : Int) * 86400 + now_sec
        ∧ ((today : Int) * 86400 + now_sec : Int) <
            (today : Int) * 86400 + ift_t * 60 - (m : Int) * 60 + 60))
    ∧ (((today : Int) * 86400 + ift_t * 60 - (m : Int) * 60 ≤ (today : Int) * 86400 + now_sec
        ∧ ((today : Int) * 86400 + now_sec : Int) <
            (today : Int) * 86400 + ift_t * 60 - (m : Int) * 60 + 60) →
        ("iftar-" ++ toString m) ∈
          ledger_get (ledgerOf (reminders_phase sah_t ift_t today now_sec uid u acc).1 uid)
            today) := by
  simp only [reminders_phase]
  rw [hrec]
  simp only [Option.getD_some]
  rw [hP]
  have hndk : ((P.iftar.map (fun (mins : Nat) => ("iftar-" ++ toString mins,
      (today : Int) * 86400 + ift_t * 60 - (mins : Int) * 60))).map Prod.fst).Nodup := by
    rw [List.map_map]
    exact hnd
  have hmemi : (("iftar-" ++ toString m : String),
      ((today : Int) * 86400 + ift_t * 60 - (m : Int) * 60 : Int)) ∈
      P.iftar.map (fun (mins : Nat) => ("iftar-" ++ toString mins,
        (today : Int) * 86400 + ift_t * 60 - (mins : Int) * 60)) :=
    List.mem_map_of_mem _ hm
  have h3 := check_items_target uid today ((today : Int) * 86400 + now_sec)
    ("iftar-" ++ toString m) ((today : Int) * 86400 + ift_t * 60 - (m : Int) * 60)
    (P.iftar.map (fun (mins : Nat) => ("iftar-" ++ toString mins,
      (today : Int) * 86400 + ift_t * 60 - (mins : Int) * 60)))
    hndk hmemi acc hinv hmsg
  have h4 := check_items_other uid today ((today : Int) * 86400 + now_sec)
    ("iftar-" ++ toString m) [("iftar-now", (today : Int) * 86400 + ift_t * 60)]
    (by
      intro it hit
      rw [List.mem_singleton] at hit
      subst hit
      exact hnow)
    (check_items uid today ((today : Int) * 86400 + now_sec)
      (P.iftar.map (fun (mins : Nat) => ("iftar-" ++ toString mins,
        (today : Int) * 86400 + ift_t * 60 - (mins : Int) * 60))) acc)
    h3.1
  have h5 := check_items_other uid today ((today : Int) * 86400 + now_sec)
    ("iftar-" ++ toString m)
    (P.saharlik.map (fun (mins : Nat) => ("saharlik-" ++ toString mins,
      (today : Int) * 86400 + sah_t * 60 - (mins : Int) * 60)))
    (by
      intro it hit
      rcases List.mem_map.mp hit with ⟨mins, hmins, hitv⟩
      rw [← hitv]
      exact hsah mins hmins)
    (check_items uid today ((today : Int) * 86400 + now_sec)
      [("iftar-now", (today : Int) * 86400 + ift_t * 60)]
      (check_items uid today ((today : Int) * 86400 + now_sec)
        (P.iftar.map (fun (mins : Nat) => ("iftar-" ++ toString mins,
          (today : Int) * 86400 + ift_t * 60 - (mins : Int) * 60))) acc))
    h4.1
  constructor
  · rw [h5.2.2 false, h4.2.2 false, h3.2.1]
  · intro hw
    exact h5.2.1.mpr (h4.2.1.mpr (h3.2.2 hw))

theorem c5_assemble (tmt : Option (Nat × Nat)) (st : Store) (uid : String)
    (u u2 : UserSettings) (sah_t ift_t today now_sec : Nat) (P : Preset) (m : Nat)
    (hu2 : dget (digests_phase (some (sah_t, ift_t)) tmt today now_sec u uid st).1.users uid =
      some u2)
    (hp2 : preset_of u2.preset = P)
    (hinv : LedgerDaysOk st uid today)
    (hm : m ∈ P.iftar)
    (hnd : (P.iftar.map (fun mins => "iftar-" ++ toString mins)).Nodup)
    (hnow : "iftar-now" ≠ "iftar-" ++ toString m)
    (hsah : ∀ mins ∈ P.saharlik, "saharlik-" ++ toString mins ≠ "iftar-" ++ toString m)
    (hmor : ("iftar-" ++ toString m) ≠ "morning")
    (hnig : ("iftar-" ++ toString m) ≠ "night") :
    ((Msg.mk ("iftar-" ++ toString m) false) ∈
        (reminders_phase sah_t ift_t today now_sec uid u
          (digests_phase (some (sah_t, ift_t)) tmt today now_sec u uid st)).2 ↔
      (¬ ("iftar-" ++ toString m) ∈ ledger_get (ledgerOf st uid) today
        ∧ (today : Int) * 86400 + ift_t * 60 - (m : Int) * 60 ≤ (today : Int) * 86400 + now_sec
        ∧ ((today : Int) * 86400 + now_sec : Int) <
            (today : Int) * 86400 + ift_t * 60 - (m : Int) * 60 + 60))
    ∧ (((today : Int) * 86400 + ift_t * 60 - (m : Int) * 60 ≤ (today : Int) * 86400 + now_sec
        ∧ ((today : Int) * 86400 + now_sec : Int) <
            (today : Int) * 86400 + ift_t * 60 - (m : Int) * 60 + 60) →
        ("iftar-" ++ toString m) ∈
          ledger_get (ledgerOf (reminders_phase sah_t ift_t today now_sec uid u
            (digests_phase (some (sah_t, ift_t)) tmt today now_sec u uid st)).1 uid) today) := by
  have hinv2 : LedgerDaysOk
      (digests_phase (some (sah_t, ift_t)) tmt today now_sec u uid st).1 uid today :=
    digests_phase_inv hinv
  have hmsg2 : (Msg.mk ("iftar-" ++ toString m) false) ∉
      (digests_phase (some (sah_t, ift_t)) tmt today now_sec u uid st).2 :=
    digests_phase_msg_other hmor hnig
  have hcore := reminders_phase_iftar sah_t ift_t today now_sec uid u u2
    (digests_phase (some (sah_t, ift_t)) tmt today now_sec u uid st) P m
    hu2 hp2 hinv2 hmsg2 hm hnd hnow hsah
  have hbridge := @digests_phase_ledger_other (some (sah_t, ift_t)) tmt _ now_sec u _ _
    ("iftar-" ++ toString m) hinv hmor hnig
  constructor
  · rw [hcore.1, hbridge]
  · exact hcore.2

/-- C5: for an enabled user with an exact entry for today and a lead value
m of the user preset iftar list, the reminder with key "iftar-m" is sent on
a tick exactly when trigger <= now < trigger + one minute (trigger = end
time minus m minutes) and the key is not yet in the ledger, and inside the
window the key is marked afterwards.  The hypotheses record the ledger
well-formedness the running loop maintains: unique day keys, none after
today. -/
theorem c5_iftar_lead_reminder (tomorrow_times : Option (Nat × Nat)) (st : Store)
    (uid : String) (u : UserSettings) (sah_t ift_t today now_sec m : Nat)
    (hu : dget st.users uid = some u) (hen : u.enabled = true)
    (hinv : LedgerDaysOk st uid today)
    (hm : m ∈ (preset_of u.preset).iftar) :
    ((Msg.mk ("iftar-" ++ toString m) false) ∈
        (tick_user (some (sah_t, ift_t)) tomorrow_times today now_sec st uid).2 ↔
      (¬ ("iftar-" ++ toString m) ∈ ledger_get (ledgerOf st uid) today
        ∧ (today : Int) * 86400 + ift_t * 60 - (m : Int) * 60 ≤ (today : Int) * 86400 + now_sec
        ∧ ((today : Int) * 86400 + now_sec : Int) <
            (today : Int) * 86400 + ift_t * 60 - (m : Int) * 60 + 60))
    ∧ (((today : Int) * 86400 + ift_t * 60 - (m : Int) * 60 ≤ (today : Int) * 86400 + now_sec
        ∧ ((today : Int) * 86400 + now_sec : Int) <
            (today : Int) * 86400 + ift_t * 60 - (m : Int) * 60 + 60) →
        ("iftar-" ++ toString m) ∈
          ledger_get (ledgerOf
            (tick_user (some (sah_t, ift_t)) tomorrow_times today now_sec st uid).1 uid)
            today) := by
  rw [tick_user_eq_some hu hen]
  obtain ⟨u2, hu2, hp2⟩ := @digests_phase_record (some (sah_t, ift_t))
    tomorrow_times _ now_sec u _ _ _ hu
  rcases preset_of_cases u.preset with hp | hp | hp <;> rw [hp] at hm hp2
  · have hm2 : m ∈ [30, 15, 10, 5, 1] := hm
    fin_cases hm2 <;>
      exact c5_assemble tomorrow_times st uid u u2 sah_t ift_t today now_sec full_preset _
        hu2 hp2 hinv (by decide) (by decide) (by decide) (by decide) (by decide) (by decide)
  · have hm2 : m ∈ [10, 5, 1] := hm
    fin_cases hm2 <;>
      exact c5_assemble tomorrow_times st uid u u2 sah_t ift_t today now_sec short_preset _
        hu2 hp2 hinv (by decide) (by decide) (by decide) (by decide) (by decide) (by decide)
  · have hm2 : m ∈ [5, 1] := hm
    fin_cases hm2 <;>
      exact c5_assemble tomorrow_times st uid u u2 sah_t ift_t today now_sec minimal_preset _
        hu2 hp2 hinv (by decide) (by decide) (by decide) (by decide) (by decide) (by decide)

/-- C5 witness: endTime 18:00 and lead 5 — a tick at 17:55:00 fires
"iftar-5", the next tick at 17:55:10 does not re-fire it, and a tick at
17:54:59 does not fire it. -/
theorem c5_witness :
    (Msg.mk "iftar-5" false) ∈
      (tick_user (some (300, 1080)) none 739000 64500 ⟨[("5", defaultUser)], []⟩ "5").2
    ∧ (tick_user (some (300, 1080)) none 739000 64510
        (tick_user (some (300, 1080)) none 739000 64500 ⟨[("5", defaultUser)], []⟩ "5").1
        "5").2 = []
    ∧ (tick_user (some (300, 1080)) none 739000 64499 ⟨[("5", defaultUser)], []⟩ "5").2 = [] :=
  ⟨(c5_iftar_lead_reminder none ⟨[("5", defaultUser)], []⟩ "5" defaultUser 300 1080 739000
      64500 5 (by decide) rfl ⟨by decide, by decide⟩ (by decide)).1.mpr
    ⟨by decide, by decide, by decide⟩,
   by decide, by decide⟩

/-! ### C7: no reminders without an exact entry for today -/

/-- C7: when today has no exact schedule entry, the tick sends no
end-of-window or start-of-window reminder to any user — only the two
digests can fire; the morning digest then carries the degraded not-found
content, and both digests still fire exactly at their configured times when
unsent. -/
theorem c7_digests_only_without_exact (tomorrow_times : Option (Nat × Nat))
    (today now_sec : Nat) (st : Store) (uid : String) (u : UserSettings)
    (hu : dget st.users uid = some u) :
    (∀ msg ∈ (tick_user none tomorrow_times today now_sec st uid).2,
        msg.key = "morning" ∨ msg.key = "night")
    ∧ (∀ msg ∈ (tick_user none tomorrow_times today now_sec st uid).2,
        msg.key = "morning" → msg.degraded = true)
    ∧ (u.enabled = true →
        ((Msg.mk "morning" true) ∈ (tick_user none tomorrow_times today now_sec st uid).2 ↔
          (strftime_hm now_sec = u.morning_time
            ∧ ¬ "morning" ∈ ledger_get (ledgerOf st uid) today)))
    ∧ (u.enabled = true → LedgerDaysOk st uid today →
        ((Msg.mk "night" tomorrow_times.isNone) ∈
            (tick_user none tomorrow_times today now_sec st uid).2 ↔
          (strftime_hm now_sec = u.night_time
            ∧ ¬ "night" ∈ ledger_get (ledgerOf st uid) today))) := by
  by_cases hen : u.enabled = true
  · rw [tick_user_eq_none hu hen]
    refine ⟨?_, ?_, fun _ => ?_, fun _ hinv => ?_⟩
    · intro msg hm
      rcases digests_phase_msgs msg hm with h | h
      · exact Or.inl (by rw [h])
      · exact Or.inr (by rw [h])
    · intro msg hm hkey
      rcases digests_phase_msgs msg hm with h | h
      · rw [h]
        rfl
      · rw [h] at hkey
        exact absurd hkey (by simp)
    · have h := @digests_phase_morning_fire (none : Option (Nat × Nat))
        tomorrow_times today now_sec u uid st
      rw [show (Msg.mk "morning" true) =
        (Msg.mk "morning" (Option.isNone (none : Option (Nat × Nat)))) from rfl]
      rw [h, decide_eq_true_eq]
    · have h := @digests_phase_night_fire (none : Option (Nat × Nat))
        tomorrow_times today now_sec u uid st hinv
      rw [h, decide_eq_true_eq]
  · have hd : u.enabled = false := by
      cases hb : u.enabled
      · rfl
      · exact absurd hb hen
    rw [tick_user_disabled hu hd]
    refine ⟨?_, ?_, fun hc => absurd hc hen, fun hc _ => absurd hc hen⟩
    · intro msg hm
      simp at hm
    · intro msg hm
      simp at hm

/-- C7 witness: a tick at 08:30 with no entry for today fires the degraded
morning digest and nothing else. -/
theorem c7_witness :
    (Msg.mk "morning" true) ∈
      (tick_user none (some (300, 1080)) 739000 30600 ⟨[("7", defaultUser)], []⟩ "7").2
    ∧ (∀ msg ∈ (tick_user none (some (300, 1080)) 739000 30600
        ⟨[("7", defaultUser)], []⟩ "7").2, msg.key = "morning" ∨ msg.key = "night") :=
  ⟨((c7_digests_only_without_exact (some (300, 1080)) 739000 30600
      ⟨[("7", defaultUser)], []⟩ "7" defaultUser (by decide)).2.2.1 rfl).mpr
    ⟨by decide, by decide⟩,
   (c7_digests_only_without_exact (some (300, 1080)) 739000 30600
      ⟨[("7", defaultUser)], []⟩ "7" defaultUser (by decide)).1⟩

end Ram
